import Mathlib

/-
Verification development for the session-log reconstruction engine of
mooomooo-viewer (the module holding readJsonl, parseSessionSummary,
buildToolCalls, buildMessages, buildTokenTimeline and getSessionDetail).

Modelling conventions for the JavaScript runtime, used throughout:

* JSON values are the inductive `Json` below.  JSON numbers are modelled as
  integers (`Int`): every numeric field of the log schema (token counts) is an
  integer, so the embedded JSON reader accepts the integer subset of JSON
  number syntax and treats fractional literals as malformed.
* The JavaScript `undefined` is `Option.none`; a present field holds `some v`
  (`v` may be `Json.null`).  The nullish operator `??` therefore falls through
  on both `none` and `some Json.null` (helper `nnOpt`).
* A JavaScript number that can be `NaN` is an `Option Int`, with `none` for
  `NaN` (`Date.prototype.getTime` on an unparseable date, arithmetic on
  non-numbers).
* `new Date(s).getTime()` is `dateMs s`: an ISO-8601 (date or date-time with
  a `Z` suffix) parser returning `none` (NaN) for anything else.  Strings the
  code produces (`new Date(0).toISOString()`) parse to their epoch value.
* `Array.prototype.sort` (stable since ES2019) is `jsSort le` — an insertion
  sort that keeps the original order of elements the comparator does not
  strictly separate; `le a b` states that the source comparator returns a
  value that is not positive on `(a, b)` (a `NaN` comparator value counts as
  zero, per the ECMAScript SortCompare clause).
* A `Map` with string keys is an insertion-ordered association list
  (`mapGet` / `mapSet`); `Map.prototype.set` on an existing key keeps the
  key's original position, as in JavaScript.
* A `Set` of strings is a duplicate-free list in insertion order (`setAdd`).
-/

inductive Json where
  | null
  | bool (b : Bool)
  | num (n : Int)
  | str (s : String)
  | arr (elems : List Json)
  | obj (fields : List (String × Json))

/-- Field access on a decoded JSON value: `some v` when the value is an
object carrying the key (for duplicate keys `JSON.parse` keeps the last
occurrence, hence the reversed lookup), `none` (undefined) otherwise —
including property access on primitives and arrays, which yields undefined
for the keys the source reads. -/
def Json.getField : Json → String → Option Json
  | Json.obj fields, k => fields.reverse.lookup k
  | _, _ => none

/-- The value of field `k` when it is a string (`typeof x.k === "string"`). -/
def Json.getStr (j : Json) (k : String) : Option String :=
  match j.getField k with
  | some (Json.str s) => some s
  | _ => none

/-- Collapse a present `null` into `none`: the left operand of `??` offers a
value only when it is neither undefined nor null. -/
def nnOpt : Option Json → Option Json
  | some Json.null => none
  | x => x

/-- Field access as the left operand of `??`. -/
def Json.nnField (j : Json) (k : String) : Option Json :=
  nnOpt (j.getField k)

/-- JavaScript truthiness of a JSON value. -/
def Json.truthy : Json → Bool
  | Json.null => false
  | Json.bool b => b
  | Json.num n => n != 0
  | Json.str s => s ≠ ""
  | Json.arr _ => true
  | Json.obj _ => true

/-- Truthiness of a possibly-undefined value. -/
def truthyOpt : Option Json → Bool
  | none => false
  | some v => v.truthy

/-- Optional-chained field access `x?.k` on a possibly-undefined value. -/
def optField (o : Option Json) (k : String) : Option Json :=
  match o with
  | some v => v.getField k
  | none => none

/-- The JavaScript `||` on JSON values. -/
def jsOr (a b : Json) : Json :=
  if a.truthy then a else b

/-- Subtraction of two JSON values as JavaScript numbers: defined (an
integer) only when both are numbers, `NaN` (`none`) otherwise.  (Numeric
coercion of strings and booleans is not modelled; the log schema carries
numbers in these fields.) -/
def jsSub : Option Json → Option Json → Option Int
  | some (Json.num a), some (Json.num b) => some (a - b)
  | _, _ => none

/-- The JavaScript `Math.max(0, x)` on a possibly-NaN number. -/
def jsMax0 : Option Int → Option Int
  | some n => some (max 0 n)
  | none => none

mutual

/-- Rendering of a JSON value inside a template literal (`String(v)`);
objects render as the fixed object tag, arrays join their elements. -/
def jsToString : Json → String
  | Json.null => "null"
  | Json.bool b => if b then "true" else "false"
  | Json.num n => toString n
  | Json.str s => s
  | Json.arr xs => jsToStringElems xs
  | Json.obj _ => "[object Object]"

/-- Rendering of array elements for `Array.prototype.toString`: elements
joined by commas, a null element rendering as the empty string. -/
def jsToStringElems : List Json → String
  | [] => ""
  | [Json.null] => ""
  | [x] => jsToString x
  | Json.null :: rest => "," ++ jsToStringElems rest
  | x :: rest => jsToString x ++ "," ++ jsToStringElems rest

end

/-- Rendering of a possibly-undefined value in a template literal. -/
def jsToStringOpt : Option Json → String
  | none => "undefined"
  | some v => jsToString v

/-- Insertion step of the stable sort: the new element settles in front of
the first element `y` with `le x y`. -/
def jsInsert (le : α → α → Bool) (x : α) : List α → List α
  | [] => [x]
  | y :: ys => if le x y then x :: y :: ys else y :: jsInsert le x ys

/-- The model of `Array.prototype.sort` with a comparator whose
not-positive outcomes are `le`: a stable insertion sort. -/
def jsSort (le : α → α → Bool) : List α → List α
  | [] => []
  | x :: xs => jsInsert le x (jsSort le xs)

/-- Lookup in an insertion-ordered string-keyed map (`Map.prototype.get`). -/
def mapGet (m : List (String × α)) (k : String) : Option α :=
  m.lookup k

/-- Update of an insertion-ordered map (`Map.prototype.set`): an existing
key keeps its position, a new key goes to the end. -/
def mapSet (m : List (String × α)) (k : String) (v : α) : List (String × α) :=
  match m with
  | [] => [(k, v)]
  | (k', v') :: rest =>
    if k' = k then (k, v) :: rest else (k', v') :: mapSet rest k v

/-- Insertion into a string set (`Set.prototype.add`). -/
def setAdd (s : List String) (x : String) : List String :=
  if x ∈ s then s else s ++ [x]

/-- Lexicographic comparison of character lists, the order JavaScript's
`<` and `>` induce on strings (code-unit order; identical to code-point
order on the basic-plane text these logs carry). -/
def charListLt : List Char → List Char → Bool
  | [], [] => false
  | [], _ :: _ => true
  | _ :: _, [] => false
  | a :: as, b :: bs =>
    if a < b then true
    else if b < a then false
    else charListLt as bs

/-- The JavaScript `a < b` on strings. -/
def jsStrLt (a b : String) : Bool :=
  charListLt a.toList b.toList

/-- JavaScript truthiness of a possibly-undefined string: false for
undefined and for the empty string. -/
def strOptTruthy : Option String → Bool
  | some s => s ≠ ""
  | none => false

/-- Numeric value of an ASCII digit. -/
def digitVal (c : Char) : Option Nat :=
  if c.isDigit then some (c.toNat - 48) else none

/-- Read exactly two ASCII digits. -/
def twoDigits : List Char → Option (Nat × List Char)
  | a :: b :: rest =>
    match digitVal a, digitVal b with
    | some x, some y => some (10 * x + y, rest)
    | _, _ => none
  | _ => none

/-- Read exactly four ASCII digits. -/
def fourDigits (cs : List Char) : Option (Nat × List Char) :=
  match twoDigits cs with
  | some (hi, rest) =>
    match twoDigits rest with
    | some (lo, rest') => some (100 * hi + lo, rest')
    | none => none
  | none => none

/-- Whether a year is a leap year (proleptic Gregorian, as `Date` uses). -/
def isLeapYear (y : Nat) : Bool :=
  (y % 4 = 0 && y % 100 ≠ 0) || y % 400 = 0

/-- The number of days of month `m` (1-12) of year `y`. -/
def daysInMonth (y m : Nat) : Nat :=
  if m = 2 then (if isLeapYear y then 29 else 28)
  else if m = 4 || m = 6 || m = 9 || m = 11 then 30
  else 31

/-- Days from 1970-01-01 to year `y`, month `m`, day `d` (civil-calendar
conversion; the parser only feeds it years 0-9999). -/
def daysFromCivil (y m d : Nat) : Int :=
  let yAdj : Int := if m ≤ 2 then (y : Int) - 1 else (y : Int)
  let era : Int := yAdj / 400
  let yoe : Int := yAdj - era * 400
  let mAdj : Int := if m > 2 then (m : Int) - 3 else (m : Int) + 9
  let doy : Int := (153 * mAdj + 2) / 5 + (d : Int) - 1
  let doe : Int := yoe * 365 + yoe / 4 - yoe / 100 + doy
  era * 146097 + doe - 719468

/-- Millisecond part of an ISO time suffix after the seconds: empty, or a
dot followed by exactly three digits. -/
def parseMsPart : List Char → Option (Nat × List Char)
  | [] => some (0, [])
  | '.' :: rest =>
    match twoDigits rest with
    | some (hi, rest') =>
      match rest' with
      | c :: rest'' =>
        match digitVal c with
        | some lo => some (10 * hi + lo, rest'')
        | none => none
      | [] => none
    | none => none
  | cs => some (0, cs)

/-- Time-of-day part of an ISO string: `hh:mm`, optionally `:ss` and
`.sss`, and a terminating `Z` designator. -/
def parseIsoTime (cs : List Char) : Option Nat :=
  match twoDigits cs with
  | some (h, ':' :: rest) =>
    match twoDigits rest with
    | some (mi, rest') =>
      match rest' with
      | ':' :: rest'' =>
        match twoDigits rest'' with
        | some (s, rest3) =>
          match parseMsPart rest3 with
          | some (ms, ['Z']) =>
            if h ≤ 23 && mi ≤ 59 && s ≤ 59 then
              some (((h * 60 + mi) * 60 + s) * 1000 + ms)
            else none
          | _ => none
        | none => none
      | ['Z'] =>
        if h ≤ 23 && mi ≤ 59 then some ((h * 60 + mi) * 60000) else none
      | _ => none
    | none => none
  | _ => none

/-- The model of `new Date(s).getTime()` on the strings this code meets:
an ISO-8601 date (`YYYY-MM-DD`) or UTC date-time (`...Thh:mm[:ss[.sss]]Z`)
yields its epoch milliseconds, anything else is `NaN` (`none`). -/
def dateMs (s : String) : Option Int :=
  match fourDigits s.toList with
  | some (y, '-' :: rest) =>
    match twoDigits rest with
    | some (mo, '-' :: rest') =>
      match twoDigits rest' with
      | some (d, rest'') =>
        if 1 ≤ mo && mo ≤ 12 && 1 ≤ d && d ≤ daysInMonth y mo then
          match rest'' with
          | [] => some (daysFromCivil y mo d * 86400000)
          | 'T' :: timePart =>
            match parseIsoTime timePart with
            | some ms => some (daysFromCivil y mo d * 86400000 + ms)
            | none => none
          | _ => none
        else none
      | _ => none
    | _ => none
  | _ => none

/-- The ISO rendering of the epoch, `new Date(0).toISOString()`. -/
def epochIso : String := "1970-01-01T00:00:00.000Z"

/-- Character class of `slugify`: what `[^a-z0-9]` does not match after
lowercasing. -/
def isSlugChar (c : Char) : Bool :=
  ('a' ≤ c && c ≤ 'z') || c.isDigit

/-- Replacement of every maximal run of non-slug characters by a single
dash, the global `[^a-z0-9]+` regex substitution. -/
def slugifyGo : Bool → List Char → List Char
  | _, [] => []
  | inRun, c :: rest =>
    if isSlugChar c then c :: slugifyGo false rest
    else if inRun then slugifyGo true rest
    else '-' :: slugifyGo true rest

/-- ASCII lowercasing of one character (`toLowerCase` on the character
range the working-directory paths use). -/
def charLower (c : Char) : Char :=
  if 'A' ≤ c && c ≤ 'Z' then Char.ofNat (c.toNat + 32) else c

/-- Embedding of `slugify`: lowercase, collapse non-alphanumeric runs to
dashes, then drop the single possible leading and trailing dash
(the `(^-|-$)` substitution; after collapsing, edge dashes are single). -/
def slugify (value : String) : String :=
  let collapsed := slugifyGo false (value.toList.map charLower)
  let s1 := if collapsed.head? = some '-' then collapsed.tail else collapsed
  let s2 := if s1.getLast? = some '-' then s1.dropLast else s1
  String.mk s2

/-- Removal of leading and trailing whitespace (the `trim` of the source),
implemented over the character list so that it evaluates inside proofs. -/
def jsTrim (s : String) : String :=
  String.mk (((s.toList.dropWhile Char.isWhitespace).reverse.dropWhile
    Char.isWhitespace).reverse)

/-- Whether a line starts with the non-JSON diagnostic marker that
`lineFilter` screens out. -/
def startsWithMarker (line : String) : Bool :=
  List.isPrefixOf (String.toList ("Total output lines")) line.toList

/-- Display text of one rich-content chunk: its `text` field when the chunk
is an object holding a string there, empty otherwise (non-objects, null and
arrays contribute nothing). -/
def chunkText (chunk : Json) : String :=
  match chunk with
  | Json.obj fs =>
    match (Json.obj fs).getStr "text" with
    | some t => t
    | none => ""
  | _ => ""

/-- Embedding of `extractText`: non-arrays give the empty string; an array
maps chunks to their text, drops falsy (empty) pieces, joins the rest with
newlines and trims the result. -/
def extractText (content : Option Json) : String :=
  match content with
  | some (Json.arr chunks) =>
    jsTrim (String.intercalate "\n" ((chunks.map chunkText).filter (fun s => s ≠ "")))
  | _ => ""

/-- Replacement of every whitespace run by one space, the `\s+` global
substitution of `composePreview`. -/
def collapseWsGo : Bool → List Char → List Char
  | _, [] => []
  | inRun, c :: rest =>
    if c.isWhitespace then
      (if inRun then collapseWsGo true rest else ' ' :: collapseWsGo true rest)
    else c :: collapseWsGo false rest

/-- Embedding of `composePreview`: empty text falls back to the fixed
placeholder; otherwise whitespace is collapsed and trimmed, and text longer
than 180 characters is cut to 177 with a trailing ellipsis. -/
def composePreview (text : String) : String :=
  if text = "" then "(no prompt logged)"
  else
    let cleaned := jsTrim (String.mk (collapseWsGo false text.toList))
    if cleaned.length > 180 then cleaned.take 177 ++ "..." else cleaned

/-- JSON insignificant whitespace. -/
def jsonWs (c : Char) : Bool :=
  c = ' ' || c = '\t' || c = '\n' || c = '\r'

/-- Skip insignificant whitespace. -/
def skipWs : List Char → List Char
  | [] => []
  | c :: rest => if jsonWs c then skipWs rest else c :: rest

/-- Numeric value of a hexadecimal digit. -/
def hexVal (c : Char) : Option Nat :=
  if c.isDigit then some (c.toNat - 48)
  else if 'a' ≤ c && c ≤ 'f' then some (c.toNat - 87)
  else if 'A' ≤ c && c ≤ 'F' then some (c.toNat - 55)
  else none

/-- Read exactly four hexadecimal digits (a `\u` escape). -/
def parseHex4 : List Char → Option (Nat × List Char)
  | a :: b :: c :: d :: rest =>
    match hexVal a, hexVal b, hexVal c, hexVal d with
    | some w, some x, some y, some z =>
      some (((w * 16 + x) * 16 + y) * 16 + z, rest)
    | _, _, _, _ => none
  | _ => none

/-- Body of a JSON string literal, after the opening quote: JSON escapes are
decoded, unescaped control characters make the literal malformed. -/
def parseStrChars (acc : List Char) : List Char → Option (String × List Char)
  | [] => none
  | c :: rest =>
    if c = '"' then some (String.mk acc.reverse, rest)
    else if c = '\\' then
      match rest with
      | [] => none
      | e :: rest' =>
        if e = '"' then parseStrChars ('"' :: acc) rest'
        else if e = '\\' then parseStrChars ('\\' :: acc) rest'
        else if e = '/' then parseStrChars ('/' :: acc) rest'
        else if e = 'b' then parseStrChars ('\x08' :: acc) rest'
        else if e = 'f' then parseStrChars ('\x0C' :: acc) rest'
        else if e = 'n' then parseStrChars ('\n' :: acc) rest'
        else if e = 'r' then parseStrChars ('\r' :: acc) rest'
        else if e = 't' then parseStrChars ('\t' :: acc) rest'
        else if e = 'u' then
          match rest' with
          | h1 :: h2 :: h3 :: h4 :: rest'' =>
            (match hexVal h1, hexVal h2, hexVal h3, hexVal h4 with
             | some w, some x, some y, some z =>
               parseStrChars (Char.ofNat (((w * 16 + x) * 16 + y) * 16 + z) :: acc) rest''
             | _, _, _, _ => none)
          | _ => none
        else none
    else if c.toNat < 32 then none
    else parseStrChars (c :: acc) rest

/-- Digit run of a number literal, accumulating left to right. -/
def parseDigitsGo (acc : Nat) : List Char → Nat × List Char
  | [] => (acc, [])
  | c :: rest =>
    match digitVal c with
    | some d => parseDigitsGo (10 * acc + d) rest
    | none => (acc, c :: rest)

/-- Unsigned integer part of a JSON number: a lone zero or a nonzero
leading digit followed by more digits (JSON forbids leading zeros). -/
def parseNumTail : List Char → Option (Nat × List Char)
  | [] => none
  | c :: rest =>
    match digitVal c with
    | some 0 => some (0, rest)
    | some d => some (parseDigitsGo d rest)
    | none => none

/-- Whether a number literal ends here: integer-subset reader, so a
following fraction or exponent marker makes the literal unsupported. -/
def numTerminated : List Char → Bool
  | [] => true
  | c :: _ => !(c = '.' || c = 'e' || c = 'E')

/-- Signed integer JSON number at the head of the input. -/
def parseJsonInt : List Char → Option (Json × List Char)
  | '-' :: rest =>
    (match parseNumTail rest with
     | some (n, rest') =>
       if numTerminated rest' then some (Json.num (-(n : Int)), rest') else none
     | none => none)
  | cs =>
    match parseNumTail cs with
    | some (n, rest') =>
      if numTerminated rest' then some (Json.num (n : Int), rest') else none
    | none => none

mutual

/-- One JSON value at the head of the input (recursion bounded by fuel; the
top-level entry supplies enough for any input of the given length). -/
def parseVal : Nat → List Char → Option (Json × List Char)
  | 0, _ => none
  | fuel + 1, cs =>
    match skipWs cs with
    | '{' :: rest =>
      (match skipWs rest with
       | '}' :: rest' => some (Json.obj [], rest')
       | other => parseMembers fuel [] other)
    | '[' :: rest =>
      (match skipWs rest with
       | ']' :: rest' => some (Json.arr [], rest')
       | other => parseElems fuel [] other)
    | '"' :: rest =>
      (match parseStrChars [] rest with
       | some (s, rest') => some (Json.str s, rest')
       | none => none)
    | 't' :: 'r' :: 'u' :: 'e' :: rest => some (Json.bool true, rest)
    | 'f' :: 'a' :: 'l' :: 's' :: 'e' :: rest => some (Json.bool false, rest)
    | 'n' :: 'u' :: 'l' :: 'l' :: rest => some (Json.null, rest)
    | other => parseJsonInt other

/-- Members of an object literal, from the first key onward. -/
def parseMembers : Nat → List (String × Json) → List Char → Option (Json × List Char)
  | 0, _, _ => none
  | fuel + 1, acc, cs =>
    match skipWs cs with
    | '"' :: rest =>
      (match parseStrChars [] rest with
       | some (k, rest') =>
         (match skipWs rest' with
          | ':' :: rest'' =>
            (match parseVal fuel rest'' with
             | some (v, rest3) =>
               (match skipWs rest3 with
                | ',' :: rest4 => parseMembers fuel ((k, v) :: acc) rest4
                | '}' :: rest4 => some (Json.obj ((k, v) :: acc).reverse, rest4)
                | _ => none)
             | none => none)
          | _ => none)
       | none => none)
    | _ => none

/-- Elements of an array literal, from the first element onward. -/
def parseElems : Nat → List Json → List Char → Option (Json × List Char)
  | 0, _, _ => none
  | fuel + 1, acc, cs =>
    match parseVal fuel cs with
    | some (v, rest) =>
      (match skipWs rest with
       | ',' :: rest' => parseElems fuel (v :: acc) rest'
       | ']' :: rest' => some (Json.arr (v :: acc).reverse, rest')
       | _ => none)
    | none => none

end

/-- Embedding of `JSON.parse` (integer number subset): one value and
nothing but trailing whitespace. -/
def jsonParse (s : String) : Option Json :=
  match parseVal (s.length + 1) s.toList with
  | some (v, rest) => if skipWs rest = [] then some v else none
  | none => none

/-- Embedding of `safeParse`: `JSON.parse` with failures as `undefined`. -/
def safeParse (s : String) : Option Json :=
  jsonParse s

/-- Embedding of `lineFilter`: keep a nonempty line that does not carry the
diagnostic marker, blank everything else. -/
def lineFilter (line : String) : String :=
  if line ≠ "" && !(startsWithMarker line) then line else ""

/-- One line of the log through trim, filter and parse: `some` exactly when
`readJsonl` pushes a decoded event for it (a parsed JSON object). -/
def decodeLine (line : String) : Option Json :=
  let cleaned := lineFilter (jsTrim line)
  if cleaned = "" then none
  else
    match jsonParse cleaned with
    | some (Json.obj fs) => some (Json.obj fs)
    | _ => none

/-- Splitting on every newline character, the model of `raw.split("\n")`. -/
def splitLinesGo (acc : List Char) : List Char → List String
  | [] => [String.mk acc.reverse]
  | c :: rest =>
    if c = '\n' then String.mk acc.reverse :: splitLinesGo [] rest
    else splitLinesGo (c :: acc) rest

/-- The lines of a raw log text. -/
def splitLines (raw : String) : List String :=
  splitLinesGo [] raw.toList

/-- Embedding of `readJsonl` (reading already done): split into lines, and
keep the events of the lines that decode to JSON objects. -/
def readJsonl (raw : String) : List Json :=
  (splitLines raw).filterMap decodeLine

/-- Joining lines back into a log text with newline separators, used to
state properties of whole log texts. -/
def joinLines : List String → String
  | [] => ""
  | [l] => l
  | l :: rest => l ++ "\n" ++ joinLines rest

/-- Embedding of `toRecord`: a value is kept only when it is an object
(neither null, a primitive, nor an array); applied to a possibly-absent
field value. -/
def toRecord : Option Json → Option Json
  | some (Json.obj fs) => some (Json.obj fs)
  | _ => none

/-- Embedding of the `ToolCall` record. `name`, `status`, `output` and
`metadata` hold whatever JSON value the envelopes carried (the source's
static types notwithstanding); `durationMs` is set by the post-pass and,
being a difference of `getTime` results, can itself be NaN (`some none`). -/
structure ToolCall where
  id : String
  name : Json
  toolKind : String
  status : Json
  input : Option String := none
  output : Option Json := none
  metadata : Option Json := none
  startedAt : Option String := none
  completedAt : Option String := none
  durationMs : Option (Option Int) := none

/-- One iteration of the `buildToolCalls` loop over one event. -/
def toolStep (calls : List (String × ToolCall)) (event : Json) : List (String × ToolCall) :=
  if event.getStr "type" ≠ some "response_item" then calls
  else
    match toRecord (event.getField "payload") with
    | none => calls
    | some payload =>
      let timestamp := event.getStr "timestamp"
      if payload.getStr "type" = some "function_call" then
        match payload.getStr "call_id" with
        | none => calls
        | some cid =>
          let base :=
            match mapGet calls cid with
            | some ex => ex
            | none =>
              { id := cid
                name := (payload.nnField "name").getD (Json.str "function_call")
                toolKind := "function"
                status := (payload.nnField "status").getD (Json.str "in_progress") }
          let r1 := { base with name := (payload.nnField "name").getD base.name }
          let r2 :=
            match payload.getStr "arguments" with
            | some args => { r1 with input := some args }
            | none => r1
          let r3 := { r2 with startedAt := (r2.startedAt).orElse (fun _ => timestamp) }
          let r4 := { r3 with status := (payload.nnField "status").getD r3.status }
          mapSet calls cid r4
      else if payload.getStr "type" = some "function_call_output" then
        match payload.getStr "call_id" with
        | none => calls
        | some cid =>
          match mapGet calls cid with
          | none => calls
          | some ex =>
            let r1 :=
              match payload.getStr "output" with
              | some out => { ex with output := some (Json.str out) }
              | none => ex
            let r2 :=
              { r1 with completedAt :=
                  match timestamp with
                  | some t => some t
                  | none => r1.completedAt }
            let r3 := { r2 with status := Json.str "completed" }
            mapSet calls cid r3
      else if payload.getStr "type" = some "custom_tool_call" then
        match payload.getStr "call_id" with
        | none => calls
        | some cid =>
          let base :=
            match mapGet calls cid with
            | some ex => ex
            | none =>
              { id := cid
                name := (payload.nnField "name").getD (Json.str "custom_tool")
                toolKind := "custom"
                status := (payload.nnField "status").getD (Json.str "in_progress") }
          let r1 :=
            match payload.getStr "input" with
            | some inp => { base with input := some inp }
            | none => base
          let r2 := { r1 with startedAt := (r1.startedAt).orElse (fun _ => timestamp) }
          let r3 := { r2 with status := (payload.nnField "status").getD r2.status }
          mapSet calls cid r3
      else if payload.getStr "type" = some "custom_tool_call_output" then
        match payload.getStr "call_id" with
        | none => calls
        | some cid =>
          match mapGet calls cid with
          | none => calls
          | some ex =>
            let parsed : Option Json :=
              match payload.getField "output" with
              | some (Json.str s) => safeParse s
              | other => other
            let pout := optField parsed "output"
            let r1 :=
              if truthyOpt pout then { ex with output := pout }
              else
                match payload.getStr "output" with
                | some s => { ex with output := some (Json.str s) }
                | none => ex
            let r2 :=
              { r1 with metadata := (nnOpt (optField parsed "metadata")).orElse (fun _ => r1.metadata) }
            let r3 :=
              { r2 with completedAt :=
                  match timestamp with
                  | some t => some t
                  | none => r2.completedAt }
            let r4 := { r3 with status := Json.str "completed" }
            mapSet calls cid r4
      else calls

/-- Post-pass of `buildToolCalls`: a record passing the truthiness test
`call.startedAt && call.completedAt` (both present and nonempty) gets its
duration, the difference of the two `getTime` results. -/
def finalizeCall (call : ToolCall) : ToolCall :=
  match call.startedAt, call.completedAt with
  | some s, some e =>
    if s ≠ "" && e ≠ "" then
      let d : Option Int :=
        match dateMs e, dateMs s with
        | some me, some ms => some (me - ms)
        | _, _ => none
      { call with durationMs := some d }
    else call
  | _, _ => call

/-- The final-sort comparator of `buildToolCalls` does not order the pair
`(a, b)` the other way round exactly when the truthiness guard
`a.startedAt && b.startedAt` fails — either `startedAt` undefined or the
empty string gives comparator value 0 — or `a.startedAt > b.startedAt`
fails (value -1). -/
def toolCallLe (a b : ToolCall) : Bool :=
  match a.startedAt, b.startedAt with
  | some x, some y => if x ≠ "" && y ≠ "" then !(jsStrLt y x) else true
  | _, _ => true

/-- The pair `buildToolCalls` returns. -/
structure ToolCallsResult where
  toolCalls : List ToolCall
  toolCallCount : Nat

/-- Embedding of `buildToolCalls`: fold the events through the per-id map,
finalize durations in insertion order, then stable-sort by `startedAt`. -/
def buildToolCalls (events : List Json) : ToolCallsResult :=
  let finalized := (events.foldl toolStep []).map (fun kv => finalizeCall kv.2)
  { toolCalls := jsSort toolCallLe finalized
    toolCallCount := finalized.length }

/-- Embedding of the `TokenTimelinePoint` record: the token fields hold the
raw field values of the snapshot (undefined when missing), `timestampMs`
is the `getTime` of the chosen timestamp string (NaN as `none`), and
`userTokens` is the clamped difference (NaN when the operands are not
numbers). -/
structure TokenTimelinePoint where
  timestamp : String
  timestampMs : Option Int
  totalTokens : Option Json
  inputTokens : Option Json
  cachedTokens : Option Json
  userTokens : Option Int
  outputTokens : Option Json
  reasoningTokens : Option Json
  contextWindow : Option Json

/-- The point `buildTokenTimeline` pushes for a selected usage envelope:
an absent (non-string) event timestamp is replaced by the epoch ISO string
before parsing. -/
def tokenPoint (event info total : Json) : TokenTimelinePoint :=
  let timestamp := (event.getStr "timestamp").getD epochIso
  { timestamp
    timestampMs := dateMs timestamp
    totalTokens := total.getField "total_tokens"
    inputTokens := total.getField "input_tokens"
    cachedTokens := total.getField "cached_input_tokens"
    userTokens := jsMax0 (jsSub (total.getField "input_tokens") (total.getField "cached_input_tokens"))
    outputTokens := total.getField "output_tokens"
    reasoningTokens := total.getField "reasoning_output_tokens"
    contextWindow := info.getField "model_context_window" }

/-- Selection of `buildTokenTimeline`: an `event_msg` envelope whose object
payload is a `token_count` with truthy `info` and truthy
`info.total_token_usage` yields a point, anything else none. -/
def tokenPointOf (event : Json) : Option TokenTimelinePoint :=
  if event.getStr "type" ≠ some "event_msg" then none
  else
    match toRecord (event.getField "payload") with
    | none => none
    | some payload =>
      if payload.getStr "type" = some "token_count" then
        match payload.getField "info" with
        | some info =>
          if info.truthy then
            match info.getField "total_token_usage" with
            | some total => if total.truthy then some (tokenPoint event info total) else none
            | none => none
          else none
        | none => none
      else none

/-- The timeline comparator `a.timestampMs - b.timestampMs` is not positive
(keeping `a` before `b`) when the difference is at most zero, and counts as
zero when it is NaN. -/
def timeLe (a b : TokenTimelinePoint) : Bool :=
  match a.timestampMs, b.timestampMs with
  | some x, some y => decide (x - y ≤ 0)
  | _, _ => true

/-- Embedding of `buildTokenTimeline`: one point per selected envelope in
encounter order, then the numeric sort on `timestampMs`. -/
def buildTokenTimeline (events : List Json) : List TokenTimelinePoint :=
  jsSort timeLe (events.filterMap tokenPointOf)

/-- Embedding of the `ChatMessage` record; `role` holds the raw payload
value with the assistant default. -/
structure ChatMessage where
  id : String
  timestamp : String
  role : Json
  kind : String
  text : String

/-- Text of one reasoning-summary item, exactly the chunk extraction. -/
def reasoningText (payload : Json) : String :=
  match payload.getField "summary" with
  | some (Json.arr items) =>
    String.intercalate "\n" ((items.map chunkText).filter (fun s => s ≠ ""))
  | _ => "Reasoning log hidden"

/-- One iteration of the `buildMessages` loop: the synthesized id joins the
raw timestamp rendering, the shape tag and the running count. -/
def messagesStep (acc : List ChatMessage) (event : Json) : List ChatMessage :=
  let tsRender := jsToStringOpt (event.getField "timestamp")
  let tsField := (event.getStr "timestamp").getD epochIso
  if event.getStr "type" = some "response_item" then
    match toRecord (event.getField "payload") with
    | none => acc
    | some payload =>
      if payload.getStr "type" = some "message" then
        acc ++ [{ id := tsRender ++ "-message-" ++ toString acc.length
                  timestamp := tsField
                  role := (payload.nnField "role").getD (Json.str "assistant")
                  kind := "text"
                  text := extractText (payload.getField "content") }]
      else if payload.getStr "type" = some "reasoning" then
        let summaryText := reasoningText payload
        acc ++ [{ id := tsRender ++ "-reasoning-" ++ toString acc.length
                  timestamp := tsField
                  role := Json.str "assistant"
                  kind := "reasoning"
                  text := if summaryText = "" then "Reasoning log hidden" else summaryText }]
      else acc
  else if event.getStr "type" = some "event_msg" then
    match toRecord (event.getField "payload") with
    | none => acc
    | some payload =>
      if payload.getStr "type" = some "agent_reasoning" then
        acc ++ [{ id := tsRender ++ "-agent-" ++ toString acc.length
                  timestamp := tsField
                  role := Json.str "assistant"
                  kind := "status"
                  text := (payload.getStr "text").getD "" }]
      else acc
  else acc

/-- The transcript comparator keeps `a` before `b` unless
`a.timestamp > b.timestamp`. -/
def msgLe (a b : ChatMessage) : Bool :=
  !(jsStrLt b.timestamp a.timestamp)

/-- Embedding of `buildMessages`. -/
def buildMessages (events : List Json) : List ChatMessage :=
  jsSort msgLe (events.foldl messagesStep [])

/-- Embedding of the `SessionSummary` record; fields the source leaves to
the dynamic payload values hold `Json`. -/
structure SessionSummary where
  id : String
  projectId : String
  projectName : Json
  projectPath : Json
  relativePath : String
  startedAt : Json
  lastActivityAt : Json
  preview : String
  totalTokens : Json
  cachedTokens : Json
  userTokens : Option Int
  outputTokens : Json
  reasoningTokens : Json
  contextWindow : Option Json
  toolCallCount : Nat

/-- Embedding of `emptySummary`. -/
def emptySummary : SessionSummary :=
  { id := ""
    projectId := ""
    projectName := Json.str ""
    projectPath := Json.str ""
    relativePath := ""
    startedAt := Json.str epochIso
    lastActivityAt := Json.str epochIso
    preview := ""
    totalTokens := Json.num 0
    cachedTokens := Json.num 0
    userTokens := some 0
    outputTokens := Json.num 0
    reasoningTokens := Json.num 0
    contextWindow := none
    toolCallCount := 0 }

/-- Accumulator of the `parseSessionSummary` fold. -/
structure SummaryState where
  meta : Option Json := none
  preview : String := ""
  startedAt : Json := Json.str ""
  lastActivityAt : String := ""
  tokens : Option Json := none
  contextWindow : Option Json := none
  toolCalls : List String := []

/-- One iteration of the `parseSessionSummary` loop: time bounds first,
then the per-kind dispatch. -/
def summaryStep (st : SummaryState) (event : Json) : SummaryState :=
  let st :=
    match event.getStr "timestamp" with
    | some ts =>
      if ts ≠ "" then
        { st with lastActivityAt := ts
                  startedAt := if st.startedAt.truthy then st.startedAt else Json.str ts }
      else st
    | none => st
  if event.getStr "type" = some "session_meta" then
    match toRecord (event.getField "payload") with
    | some payload =>
      { st with meta := some payload
                startedAt := (payload.nnField "timestamp").getD st.startedAt }
    | none => st
  else if event.getStr "type" = some "response_item" then
    match toRecord (event.getField "payload") with
    | none => st
    | some payload =>
      let st :=
        if payload.getStr "type" = some "message" && payload.getStr "role" = some "user"
            && st.preview = "" then
          { st with preview := composePreview (extractText (payload.getField "content")) }
        else st
      if payload.getStr "type" = some "function_call"
          || payload.getStr "type" = some "custom_tool_call" then
        match payload.getStr "call_id" with
        | some cid => { st with toolCalls := setAdd st.toolCalls cid }
        | none => st
      else st
  else if event.getStr "type" = some "event_msg" then
    match toRecord (event.getField "payload") with
    | none => st
    | some payload =>
      match payload.getField "info" with
      | some info =>
        if payload.getStr "type" = some "token_count" && info.truthy then
          { st with tokens := info.getField "total_token_usage"
                    contextWindow := info.getField "model_context_window" }
        else st
      | none => st
  else st

/-- Node's `path.basename` on the POSIX paths the logs carry: trailing
slashes are stripped, then the last segment is kept; an all-slash path
gives a slash and an empty path an empty string. -/
def pathBasename (p : String) : String :=
  let rev := p.toList.reverse
  let revStripped := rev.dropWhile (fun c => c = '/')
  if revStripped.isEmpty then (if rev.isEmpty then "" else "/")
  else String.mk ((revStripped.takeWhile (fun c => c != '/')).reverse)

/-- Rendering of the `cwd` payload value as the string `slugify` receives.
The schema carries a string there (the source would throw inside `slugify`
on anything else); non-string primitives render as their template-literal
text and containers as fixed tags, a non-recursive stand-in for that
unreachable case. -/
def cwdString : Json → String
  | Json.str s => s
  | Json.null => "null"
  | Json.bool b => if b then "true" else "false"
  | Json.num n => toString n
  | Json.arr _ => ""
  | Json.obj _ => "[object Object]"

/-- Embedding of the pure part of `parseSessionSummary` (the fold of the
decoded events into a summary).  The file-system inputs are parameters:
`sessionId` is the id the caller extracted from the file name, and
`relativePath` the path relative to the log root; the stat call and the
mtime cache around the fold are the excluded collaborators.  A non-string
`cwd` would make the source throw inside `slugify`; the schema carries a
string there, and the model renders other values before slugifying. -/
def parseSessionSummary (sessionId relativePath : String) (events : List Json) :
    Option SessionSummary :=
  let st := events.foldl summaryStep {}
  match st.meta with
  | none => none
  | some meta =>
    let cwdVal := (meta.nnField "cwd").getD (Json.str "unknown")
    let cwdStr := cwdString cwdVal
    some
      { id := sessionId
        projectId := slugify cwdStr
        projectName :=
          jsOr (Json.str (pathBasename cwdStr))
            (jsOr ((meta.getField "cwd").getD Json.null) (Json.str "unknown"))
        projectPath := cwdVal
        relativePath := relativePath
        startedAt :=
          jsOr st.startedAt
            (jsOr ((meta.getField "timestamp").getD Json.null) (Json.str epochIso))
        lastActivityAt :=
          jsOr (Json.str st.lastActivityAt)
            (jsOr st.startedAt
              (jsOr ((meta.getField "timestamp").getD Json.null) (Json.str epochIso)))
        preview := if st.preview = "" then "(no prompt logged)" else st.preview
        totalTokens := (nnOpt (optField st.tokens "total_tokens")).getD (Json.num 0)
        cachedTokens := (nnOpt (optField st.tokens "cached_input_tokens")).getD (Json.num 0)
        userTokens :=
          if truthyOpt st.tokens then
            jsMax0 (jsSub (optField st.tokens "input_tokens")
              (optField st.tokens "cached_input_tokens"))
          else some 0
        outputTokens := (nnOpt (optField st.tokens "output_tokens")).getD (Json.num 0)
        reasoningTokens := (nnOpt (optField st.tokens "reasoning_output_tokens")).getD (Json.num 0)
        contextWindow := st.contextWindow
        toolCallCount := st.toolCalls.length }

/-- Embedding of the `SessionDetail` record. -/
structure SessionDetail where
  summary : SessionSummary
  messages : List ChatMessage
  tokenTimeline : List TokenTimelinePoint
  toolCalls : List ToolCall

/-- Embedding of `getSessionDetail` once `findSessionFile` has resolved the
session id to a log source (file enumeration is an excluded collaborator):
decode the raw text once, fall back to the empty summary when the summary
fold yields none, and build the three views from the same decoded events. -/
def getSessionDetail (sessionId relativePath : String) (raw : String) : SessionDetail :=
  let events := readJsonl raw
  let summary := (parseSessionSummary sessionId relativePath events).getD emptySummary
  { summary
    messages := buildMessages events
    tokenTimeline := buildTokenTimeline events
    toolCalls := (buildToolCalls events).toolCalls }

/-- The contribution of one event to the set of distinct tool-call ids:
the abstraction both `parseSessionSummary` (through its `Set`) and
`buildToolCalls` (through its map keys) compute. -/
def toolIdsStep (ids : List String) (event : Json) : List String :=
  if event.getStr "type" = some "response_item" then
    match toRecord (event.getField "payload") with
    | none => ids
    | some payload =>
      if payload.getStr "type" = some "function_call"
          || payload.getStr "type" = some "custom_tool_call" then
        match payload.getStr "call_id" with
        | some cid => setAdd ids cid
        | none => ids
      else ids
  else ids

/-- Whether an envelope is a tool-call result (`function_call_output` or
`custom_tool_call_output` response item with an object payload). -/
def isToolResultEnv (e : Json) : Bool :=
  (e.getStr "type" = some "response_item" :  Bool) &&
  (match toRecord (e.getField "payload") with
   | some p =>
     (p.getStr "type" = some "function_call_output" : Bool)
       || (p.getStr "type" = some "custom_tool_call_output" : Bool)
   | none => false)

/-- Whether an envelope is a call-start (`function_call` or
`custom_tool_call`) for correlation id `c` whose payload carries a
non-nullish `status` value — exactly the shape whose status assignment can
overwrite an existing record's status. -/
def startCarriesStatus (c : String) (e : Json) : Bool :=
  (e.getStr "type" = some "response_item" : Bool) &&
  (match toRecord (e.getField "payload") with
   | some p =>
     ((p.getStr "type" = some "function_call" : Bool)
        || (p.getStr "type" = some "custom_tool_call" : Bool))
       && (p.getStr "call_id" = some c : Bool)
       && (p.nnField "status").isSome
   | none => false)

/-- The JavaScript `<=` between two possibly-NaN epoch values: it holds
exactly when both are numbers in order, and always fails on NaN. -/
def msLe (a b : Option Int) : Prop :=
  ∃ x y, a = some x ∧ b = some y ∧ x ≤ y

/-- First fixture timestamp (ISO, UTC). -/
def tsA : String := "2025-01-15T10:00:00.000Z"

/-- Second fixture timestamp, five seconds later. -/
def tsB : String := "2025-01-15T10:00:05.000Z"

/-- Third fixture timestamp, ten seconds in. -/
def tsC : String := "2025-01-15T10:00:10.000Z"

/-- A session-meta envelope with the given timestamp and working directory. -/
def sessionMetaEnv (ts cwd : String) : Json :=
  Json.obj [("timestamp", Json.str ts), ("type", Json.str "session_meta"),
    ("payload", Json.obj [("id", Json.str "sess1"), ("timestamp", Json.str ts),
      ("cwd", Json.str cwd)])]

/-- A user-message envelope whose rich content holds one text chunk per
given segment. -/
def userMsgEnv (ts : String) (segs : List String) : Json :=
  Json.obj [("timestamp", Json.str ts), ("type", Json.str "response_item"),
    ("payload", Json.obj [("type", Json.str "message"), ("role", Json.str "user"),
      ("content", Json.arr (segs.map (fun s =>
        Json.obj [("type", Json.str "input_text"), ("text", Json.str s)])))])]

/-- A `function_call` start envelope for the given correlation id, with an
optional timestamp and extra payload fields. -/
def fnStartEnv (cid : String) (ts : Option String) (extra : List (String × Json)) : Json :=
  Json.obj ((match ts with | some t => [("timestamp", Json.str t)] | none => []) ++
    [("type", Json.str "response_item"),
     ("payload", Json.obj ([("type", Json.str "function_call"), ("call_id", Json.str cid),
        ("name", Json.str "shell"), ("arguments", Json.str "{}")] ++ extra))])

/-- A `function_call_output` result envelope for the given correlation id. -/
def fnOutputEnv (cid : String) (ts : Option String) : Json :=
  Json.obj ((match ts with | some t => [("timestamp", Json.str t)] | none => []) ++
    [("type", Json.str "response_item"),
     ("payload", Json.obj [("type", Json.str "function_call_output"),
        ("call_id", Json.str cid), ("output", Json.str "ok")])])

/-- A usage-report (`event_msg` / `token_count`) envelope with the given
running total and optional timestamp. -/
def usageEnv (total : Int) (ts : Option String) : Json :=
  Json.obj ((match ts with | some t => [("timestamp", Json.str t)] | none => []) ++
    [("type", Json.str "event_msg"),
     ("payload", Json.obj [("type", Json.str "token_count"),
       ("info", Json.obj [("total_token_usage", Json.obj
          [("input_tokens", Json.num 50), ("cached_input_tokens", Json.num 10),
           ("output_tokens", Json.num 20), ("reasoning_output_tokens", Json.num 5),
           ("total_tokens", Json.num total)]),
         ("model_context_window", Json.num 200000)])])])

/-- Start-then-result order for one correlation id. -/
def c1StartThenResult : List Json := [fnStartEnv "c1" (some tsA) [], fnOutputEnv "c1" (some tsB)]

/-- Result-then-start order for the same pair of envelopes. -/
def c1ResultThenStart : List Json := [fnOutputEnv "c1" (some tsB), fnStartEnv "c1" (some tsA) []]

/-- A start/result pair that completes the record for id c1. -/
def c2Completed : List Json := [fnStartEnv "c1" (some tsA) [], fnOutputEnv "c1" (some tsB)]

/-- The same log followed by a late duplicate start carrying an explicit
payload status. -/
def c2Reverted : List Json :=
  c2Completed ++ [fnStartEnv "c1" (some tsC) [("status", Json.str "in_progress")]]

/-- A log whose only event is a usage report without any timestamp. -/
def c3NoTsLog : List Json := [usageEnv 150 none]

/-- A log with one usage report under an unparseable timestamp and one
without any timestamp. -/
def c4MixedLog : List Json := [usageEnv 100 (some "not a date"), usageEnv 150 none]

/-- A log of two usage reports under ascending parseable timestamps. -/
def c4OkLog : List Json := [usageEnv 100 (some tsA), usageEnv 150 (some tsB)]

/-- A log whose first start envelope lacks a timestamp while the second
has one. -/
def c5NoTsFirst : List Json := [fnStartEnv "c1" none [], fnStartEnv "c2" (some tsA) []]

/-- Three start envelopes: a late timestamp, no timestamp, an early
timestamp. -/
def c5Unsorted : List Json :=
  [fnStartEnv "a" (some tsC) [], fnStartEnv "b" none [], fnStartEnv "c" (some tsA) []]

/-- Two start envelopes sighted in descending timestamp order. -/
def c5SortedLog : List Json := [fnStartEnv "c2" (some tsB) [], fnStartEnv "c1" (some tsA) []]

/-- A timestamped start followed by a start whose timestamp is the empty
string (falsy for the comparator's guard, though present). -/
def c5EmptyTs : List Json := [fnStartEnv "c1" (some tsA) [], fnStartEnv "c2" (some "") []]

/-- The end-to-end fixture log: session meta, one user message, one
function call immediately followed by its output, and two usage reports
with increasing totals. -/
def c6Log : List Json :=
  [sessionMetaEnv tsA "/home/u/proj",
   userMsgEnv tsA ["fix bug"],
   fnStartEnv "c1" (some tsA) [],
   fnOutputEnv "c1" (some tsB),
   usageEnv 100 (some tsB),
   usageEnv 150 (some tsC)]

/-- The preview fixture: a session-meta envelope and a user message whose
rich content holds the two text segments of the claim. -/
def c8Log : List Json :=
  [sessionMetaEnv tsA "/home/u/proj", userMsgEnv tsA ["  Hello", "world  "]]

/-- A 200-character text, above the 180-character display limit. -/
def c8LongText : String := String.mk (List.replicate 200 'a')

/-- The witness log for C9: a session-meta envelope and one start. -/
def c9Log : List Json := [sessionMetaEnv tsA "/home/u/proj", fnStartEnv "c1" (some tsA) []]

/-- The summary the builder produces for the C9 witness log. -/
def c9Summary : SessionSummary :=
  { id := "sess1"
    projectId := "home-u-proj"
    projectName := Json.str "proj"
    projectPath := Json.str "/home/u/proj"
    relativePath := "rel"
    startedAt := Json.str tsA
    lastActivityAt := Json.str tsA
    preview := "(no prompt logged)"
    totalTokens := Json.num 0
    cachedTokens := Json.num 0
    userTokens := some 0
    outputTokens := Json.num 0
    reasoningTokens := Json.num 0
    contextWindow := none
    toolCallCount := 1 }

/-- The C10 witness log text: one event, no session meta. -/
def c10Raw : String := "\x7b\"type\":\"event_msg\"\x7d"

theorem jsInsert_perm (le : α → α → Bool) (x : α) (l : List α) :
    List.Perm (jsInsert le x l) (x :: l) := by
  induction l with
  | nil => exact List.Perm.refl _
  | cons y ys ih =>
    by_cases h : le x y = true
    · simp [jsInsert, h]
    · simp only [jsInsert, h, if_false, Bool.false_eq_true]
      exact (ih.cons y).trans (List.Perm.swap x y ys)

theorem jsSort_perm (le : α → α → Bool) (l : List α) : List.Perm (jsSort le l) l := by
  induction l with
  | nil => exact List.Perm.refl _
  | cons x xs ih => exact (jsInsert_perm le x (jsSort le xs)).trans (ih.cons x)

theorem mem_jsSort (le : α → α → Bool) (l : List α) (a : α) :
    a ∈ jsSort le l ↔ a ∈ l :=
  (jsSort_perm le l).mem_iff

theorem length_jsSort (le : α → α → Bool) (l : List α) :
    (jsSort le l).length = l.length :=
  (jsSort_perm le l).length_eq

theorem jsInsert_pairwise (le : α → α → Bool) (x : α) (l : List α)
    (hl : l.Pairwise (fun a b => le a b = true))
    (tot : ∀ y ∈ l, le x y = true ∨ le y x = true)
    (tr : ∀ a ∈ x :: l, ∀ b ∈ x :: l, ∀ c ∈ x :: l,
      le a b = true → le b c = true → le a c = true) :
    (jsInsert le x l).Pairwise (fun a b => le a b = true) := by
  induction l with
  | nil => simp [jsInsert]
  | cons y ys ih =>
    rcases List.pairwise_cons.mp hl with ⟨hy, hys⟩
    by_cases h : le x y = true
    · simp only [jsInsert, h, if_true]
      refine List.pairwise_cons.mpr ⟨?_, hl⟩
      intro z hz
      rcases List.mem_cons.mp hz with rfl | hz'
      · exact h
      · exact tr x (by simp) y (by simp) z (by simp [hz']) h (hy z hz')
    · simp only [jsInsert, h, if_false, Bool.false_eq_true]
      have hyx : le y x = true := (tot y (by simp)).resolve_left h
      refine List.pairwise_cons.mpr ⟨?_, ?_⟩
      · intro z hz
        rcases List.mem_cons.mp ((jsInsert_perm le x ys).mem_iff.mp hz) with rfl | hz'
        · exact hyx
        · exact hy z hz'
      · refine ih hys (fun z hz => tot z (by simp [hz])) ?_
        intro a ha b hb c hc
        have emb : ∀ w, w ∈ x :: ys → w ∈ x :: y :: ys := by
          intro w hw
          rcases List.mem_cons.mp hw with rfl | hw'
          · simp
          · simp [hw']
        exact tr a (emb a ha) b (emb b hb) c (emb c hc)

theorem jsSort_pairwise (le : α → α → Bool) (l : List α)
    (tot : ∀ a ∈ l, ∀ b ∈ l, le a b = true ∨ le b a = true)
    (tr : ∀ a ∈ l, ∀ b ∈ l, ∀ c ∈ l, le a b = true → le b c = true → le a c = true) :
    (jsSort le l).Pairwise (fun a b => le a b = true) := by
  induction l with
  | nil => simp [jsSort]
  | cons x xs ih =>
    have hsub : ∀ w, w ∈ jsSort le xs → w ∈ x :: xs := by
      intro w hw
      exact List.mem_cons_of_mem x ((jsSort_perm le xs).mem_iff.mp hw)
    refine jsInsert_pairwise le x (jsSort le xs) ?_ ?_ ?_
    · refine ih ?_ ?_
      · intro a ha b hb
        exact tot a (List.mem_cons_of_mem x ha) b (List.mem_cons_of_mem x hb)
      · intro a ha b hb c hc
        exact tr a (List.mem_cons_of_mem x ha) b (List.mem_cons_of_mem x hb)
          c (List.mem_cons_of_mem x hc)
    · intro y hy
      exact tot x (by simp) y (hsub y hy)
    · intro a ha b hb c hc
      have emb : ∀ w, w ∈ x :: jsSort le xs → w ∈ x :: xs := by
        intro w hw
        rcases List.mem_cons.mp hw with rfl | hw'
        · simp
        · exact hsub w hw'
      exact tr a (emb a ha) b (emb b hb) c (emb c hc)

theorem mapGet_mapSet_self (m : List (String × α)) (k : String) (v : α) :
    mapGet (mapSet m k v) k = some v := by
  induction m with
  | nil => simp [mapGet, mapSet, List.lookup]
  | cons kv rest ih =>
    obtain ⟨k', v'⟩ := kv
    by_cases h : k' = k
    · subst h
      simp [mapSet, mapGet, List.lookup]
    · simp only [mapSet, h, if_false]
      simpa [mapGet, List.lookup, show (k == k') = false by simpa using Ne.symm h] using ih

theorem mapGet_mapSet_ne (m : List (String × α)) (k k2 : String) (v : α) (h : k ≠ k2) :
    mapGet (mapSet m k v) k2 = mapGet m k2 := by
  induction m with
  | nil => simp [mapGet, mapSet, List.lookup, show (k2 == k) = false by simpa using Ne.symm h]
  | cons kv rest ih =>
    obtain ⟨k', v'⟩ := kv
    by_cases h' : k' = k
    · subst h'
      simp [mapSet, mapGet, List.lookup, show (k2 == k') = false by simpa using Ne.symm h]
    · simp only [mapSet, h', if_false]
      by_cases h2 : k2 = k'
      · subst h2
        simp [mapGet, List.lookup]
      · simpa [mapGet, List.lookup, show (k2 == k') = false by simpa using h2] using ih

theorem mapGet_eq_none_iff (m : List (String × α)) (k : String) :
    mapGet m k = none ↔ k ∉ m.map Prod.fst := by
  simp only [mapGet, List.lookup_eq_none_iff, List.mem_map]
  constructor
  · rintro h ⟨⟨k', v⟩, hmem, rfl⟩
    simpa using h _ hmem
  · intro h p hp
    simp only [bne_iff_ne, ne_eq]
    rintro rfl
    exact h ⟨p, hp, rfl⟩

theorem mapSet_fst_of_mem (m : List (String × α)) (k : String) (v : α)
    (h : k ∈ m.map Prod.fst) :
    (mapSet m k v).map Prod.fst = m.map Prod.fst := by
  induction m with
  | nil => simp at h
  | cons kv rest ih =>
    obtain ⟨k', v'⟩ := kv
    by_cases h' : k' = k
    · subst h'
      simp [mapSet]
    · have hrest : k ∈ rest.map Prod.fst := by
        simp only [List.map_cons, List.mem_cons] at h
        exact h.resolve_left (fun he => h' he.symm)
      simp [mapSet, h', ih hrest]

theorem mapSet_fst_of_not_mem (m : List (String × α)) (k : String) (v : α)
    (h : k ∉ m.map Prod.fst) :
    (mapSet m k v).map Prod.fst = m.map Prod.fst ++ [k] := by
  induction m with
  | nil => simp [mapSet]
  | cons kv rest ih =>
    obtain ⟨k', v'⟩ := kv
    have hne : k' ≠ k := by
      intro hk
      exact h (by simp [hk])
    have hrest : k ∉ rest.map Prod.fst := fun hk => h (by simp [hk])
    simp [mapSet, hne, ih hrest]

theorem mem_of_mapGet_eq_some (m : List (String × α)) (k : String) (v : α)
    (h : mapGet m k = some v) : (k, v) ∈ m := by
  induction m with
  | nil => simp [mapGet, List.lookup] at h
  | cons kv rest ih =>
    obtain ⟨k', v'⟩ := kv
    by_cases h' : k = k'
    · subst h'
      simp only [mapGet, List.lookup, beq_self_eq_true, Option.some.injEq] at h
      simp [h]
    · simp only [mapGet, List.lookup, show (k == k') = false by simpa using h'] at h
      exact List.mem_cons_of_mem _ (ih h)

theorem mapGet_of_mem_of_nodup (m : List (String × α)) (k : String) (v : α)
    (hmem : (k, v) ∈ m) (hnd : (m.map Prod.fst).Nodup) : mapGet m k = some v := by
  induction m with
  | nil => simp at hmem
  | cons kv rest ih =>
    obtain ⟨k', v'⟩ := kv
    rcases List.mem_cons.mp hmem with heq | hmem'
    · rw [Prod.mk.injEq] at heq
      obtain ⟨rfl, rfl⟩ := heq
      simp [mapGet, List.lookup]
    · have hne : k ≠ k' := by
        rintro rfl
        have hk : k ∈ rest.map Prod.fst := List.mem_map.mpr ⟨(k, v), hmem', rfl⟩
        simp only [List.map_cons, List.nodup_cons] at hnd
        exact hnd.1 hk
      simp only [mapGet, List.lookup, show (k == k') = false by simpa using hne]
      have hnd' : (rest.map Prod.fst).Nodup := by
        simp only [List.map_cons, List.nodup_cons] at hnd
        exact hnd.2
      exact ih hmem' hnd'

theorem charListLt_iff (as bs : List Char) : charListLt as bs = true ↔ as < bs := by
  induction as generalizing bs with
  | nil =>
    cases bs with
    | nil =>
      simp only [charListLt, Bool.false_eq_true, false_iff]
      intro h
      cases h
    | cons b bs =>
      simp only [charListLt, true_iff]
      exact List.Lex.nil
  | cons a as ih =>
    cases bs with
    | nil =>
      simp only [charListLt, Bool.false_eq_true, false_iff]
      intro h
      cases h
    | cons b bs =>
      by_cases hab : a < b
      · simp only [charListLt, hab, if_true, true_iff]
        exact List.Lex.rel hab
      · by_cases hba : b < a
        · simp only [charListLt, hab, hba, if_true, if_false, Bool.false_eq_true, false_iff]
          intro h
          cases h with
          | cons h3 => exact lt_irrefl _ hba
          | rel h1 => exact hab h1
        · have heq : a = b := le_antisymm (not_lt.mp hba) (not_lt.mp hab)
          subst heq
          simp only [charListLt, hab, if_false, ih bs]
          constructor
          · intro h
            exact List.Lex.cons h
          · intro h
            cases h with
            | cons h3 => exact h3
            | rel h1 => exact absurd h1 hab

theorem jsStrLt_iff (a b : String) : jsStrLt a b = true ↔ a < b := by
  rw [jsStrLt, charListLt_iff, String.lt_iff_toList_lt]

theorem jsStrLt_eq_false_iff (a b : String) : (jsStrLt a b = false) ↔ ¬ a < b := by
  rw [Bool.eq_false_iff, Ne, jsStrLt_iff]

theorem strOptTruthy_iff (o : Option String) :
    strOptTruthy o = true ↔ ∃ s, o = some s ∧ s ≠ "" := by
  cases o <;> simp [strOptTruthy]

theorem toolCallLe_some (a b : ToolCall) (x y : String)
    (hx : a.startedAt = some x) (hy : b.startedAt = some y)
    (hnex : x ≠ "") (hney : y ≠ "") :
    toolCallLe a b = !(jsStrLt y x) := by
  simp [toolCallLe, hx, hy, hnex, hney]

theorem toolStep_fst (m : List (String × ToolCall)) (e : Json) :
    (toolStep m e).map Prod.fst = toolIdsStep (m.map Prod.fst) e := by
  by_cases h1 : e.getStr "type" = some "response_item"
  · rcases hp : toRecord (e.getField "payload") with _ | payload
    · simp [toolStep, toolIdsStep, h1, hp]
    · by_cases h2 : payload.getStr "type" = some "function_call"
      · rcases hc : payload.getStr "call_id" with _ | cid
        · simp [toolStep, toolIdsStep, h1, hp, h2, hc]
        · by_cases hmem : cid ∈ m.map Prod.fst
          · simp [toolStep, toolIdsStep, h1, hp, h2, hc, setAdd, hmem,
              mapSet_fst_of_mem _ _ _ hmem]
          · simp [toolStep, toolIdsStep, h1, hp, h2, hc, setAdd, hmem,
              mapSet_fst_of_not_mem _ _ _ hmem]
      · by_cases h3 : payload.getStr "type" = some "function_call_output"
        · rcases hc : payload.getStr "call_id" with _ | cid
          · simp [toolStep, toolIdsStep, h1, hp, h2, h3, hc]
          · rcases hg : mapGet m cid with _ | ex
            · simp [toolStep, toolIdsStep, h1, hp, h2, h3, hc, hg]
            · have hmem : cid ∈ m.map Prod.fst := by
                by_contra hn
                rw [← mapGet_eq_none_iff] at hn
                rw [hn] at hg
                cases hg
              have h4 : payload.getStr "type" ≠ some "custom_tool_call" := by
                rw [h3]
                intro hx
                simp at hx
              simp [toolStep, toolIdsStep, h1, hp, h2, h3, h4, hc, hg,
                mapSet_fst_of_mem _ _ _ hmem]
        · by_cases h4 : payload.getStr "type" = some "custom_tool_call"
          · rcases hc : payload.getStr "call_id" with _ | cid
            · simp [toolStep, toolIdsStep, h1, hp, h2, h3, h4, hc]
            · by_cases hmem : cid ∈ m.map Prod.fst
              · simp [toolStep, toolIdsStep, h1, hp, h2, h3, h4, hc, setAdd, hmem,
                  mapSet_fst_of_mem _ _ _ hmem]
              · simp [toolStep, toolIdsStep, h1, hp, h2, h3, h4, hc, setAdd, hmem,
                  mapSet_fst_of_not_mem _ _ _ hmem]
          · by_cases h5 : payload.getStr "type" = some "custom_tool_call_output"
            · rcases hc : payload.getStr "call_id" with _ | cid
              · simp [toolStep, toolIdsStep, h1, hp, h2, h3, h4, h5, hc]
              · rcases hg : mapGet m cid with _ | ex
                · simp [toolStep, toolIdsStep, h1, hp, h2, h3, h4, h5, hc, hg]
                · have hmem : cid ∈ m.map Prod.fst := by
                    by_contra hn
                    rw [← mapGet_eq_none_iff] at hn
                    rw [hn] at hg
                    cases hg
                  simp [toolStep, toolIdsStep, h1, hp, h2, h3, h4, h5, hc, hg,
                    mapSet_fst_of_mem _ _ _ hmem]
            · simp [toolStep, toolIdsStep, h1, hp, h2, h3, h4, h5]
  · simp [toolStep, toolIdsStep, h1]

theorem summaryStep_toolCalls (st : SummaryState) (e : Json) :
    (summaryStep st e).toolCalls = toolIdsStep st.toolCalls e := by
  rcases hts : e.getStr "timestamp" with _ | ts
  · by_cases h0 : e.getStr "type" = some "session_meta"
    · rcases hp : toRecord (e.getField "payload") with _ | payload <;>
        simp [summaryStep, toolIdsStep, hts, h0, hp]
    · by_cases h1 : e.getStr "type" = some "response_item"
      · rcases hp : toRecord (e.getField "payload") with _ | payload
        · simp [summaryStep, toolIdsStep, hts, h0, h1, hp]
        · by_cases h2 : payload.getStr "type" = some "function_call"
            ∨ payload.getStr "type" = some "custom_tool_call"
          · rcases hc : payload.getStr "call_id" with _ | cid <;>
            · rcases h2 with h2 | h2 <;>
                simp [summaryStep, toolIdsStep, hts, h0, h1, hp, h2, hc, apply_ite]
          · push_neg at h2
            simp [summaryStep, toolIdsStep, hts, h0, h1, hp, h2.1, h2.2, apply_ite]
      · by_cases h3 : e.getStr "type" = some "event_msg"
        · rcases hp : toRecord (e.getField "payload") with _ | payload
          · simp [summaryStep, toolIdsStep, hts, h0, h1, h3, hp]
          · rcases hi : payload.getField "info" with _ | info <;>
              simp [summaryStep, toolIdsStep, hts, h0, h1, h3, hp, hi, apply_ite]
        · simp [summaryStep, toolIdsStep, hts, h0, h1, h3]
  · by_cases hts0 : ts = "" <;>
    · by_cases h0 : e.getStr "type" = some "session_meta"
      · rcases hp : toRecord (e.getField "payload") with _ | payload <;>
          simp [summaryStep, toolIdsStep, hts, hts0, h0, hp]
      · by_cases h1 : e.getStr "type" = some "response_item"
        · rcases hp : toRecord (e.getField "payload") with _ | payload
          · simp [summaryStep, toolIdsStep, hts, hts0, h0, h1, hp]
          · by_cases h2 : payload.getStr "type" = some "function_call"
              ∨ payload.getStr "type" = some "custom_tool_call"
            · rcases hc : payload.getStr "call_id" with _ | cid <;>
              · rcases h2 with h2 | h2 <;>
                  simp [summaryStep, toolIdsStep, hts, hts0, h0, h1, hp, h2, hc, apply_ite]
            · push_neg at h2
              simp [summaryStep, toolIdsStep, hts, hts0, h0, h1, hp, h2.1, h2.2, apply_ite]
        · by_cases h3 : e.getStr "type" = some "event_msg"
          · rcases hp : toRecord (e.getField "payload") with _ | payload
            · simp [summaryStep, toolIdsStep, hts, hts0, h0, h1, h3, hp]
            · rcases hi : payload.getField "info" with _ | info <;>
                simp [summaryStep, toolIdsStep, hts, hts0, h0, h1, h3, hp, hi, apply_ite]
          · simp [summaryStep, toolIdsStep, hts, hts0, h0, h1, h3]

theorem setAdd_nodup (ids : List String) (x : String) (h : ids.Nodup) :
    (setAdd ids x).Nodup := by
  by_cases hx : x ∈ ids
  · simpa [setAdd, hx] using h
  · simp only [setAdd, hx, if_false]
    simpa [List.nodup_append] using ⟨h, hx⟩

theorem toolIdsStep_nodup (ids : List String) (e : Json) (h : ids.Nodup) :
    (toolIdsStep ids e).Nodup := by
  unfold toolIdsStep
  split
  · split
    · exact h
    · split
      · split
        · exact setAdd_nodup _ _ h
        · exact h
      · exact h
  · exact h

theorem mem_mapSet (m : List (String × α)) (k : String) (v : α) :
    ∀ kv ∈ mapSet m k v, kv = (k, v) ∨ kv ∈ m := by
  induction m with
  | nil =>
    intro kv hkv
    simp only [mapSet] at hkv
    simp only [List.mem_singleton] at hkv
    exact Or.inl hkv
  | cons kv0 rest ih =>
    obtain ⟨k', v'⟩ := kv0
    intro kv hkv
    by_cases h : k' = k
    · subst h
      simp only [mapSet, if_true] at hkv
      rcases List.mem_cons.mp hkv with rfl | hkv'
      · exact Or.inl rfl
      · exact Or.inr (List.mem_cons_of_mem _ hkv')
    · simp only [mapSet, h, if_false] at hkv
      rcases List.mem_cons.mp hkv with rfl | hkv'
      · exact Or.inr (List.mem_cons_self _ _)
      · rcases ih kv hkv' with h2 | h2
        · exact Or.inl h2
        · exact Or.inr (List.mem_cons_of_mem _ h2)

theorem toolStep_nil_of_result (e : Json) (h : isToolResultEnv e = true) :
    toolStep [] e = [] := by
  simp only [isToolResultEnv, Bool.and_eq_true, decide_eq_true_eq] at h
  obtain ⟨h1, h2⟩ := h
  rcases hp : toRecord (e.getField "payload") with _ | payload
  · rw [hp] at h2
    cases h2
  · rw [hp] at h2
    simp only [Bool.or_eq_true, decide_eq_true_eq] at h2
    rcases h2 with hty | hty <;>
    · have hne2 : payload.getStr "type" ≠ some "function_call" := by
        rw [hty]
        intro hx
        simp at hx
      have hne4 : payload.getStr "type" ≠ some "custom_tool_call" := by
        rw [hty]
        intro hx
        simp at hx
      rcases hc : payload.getStr "call_id" with _ | cid <;>
        simp [toolStep, h1, hp, hne2, hne4, hty, hc, mapGet, List.lookup]

theorem mapSet_id_inv (m : List (String × ToolCall)) (cid : String) (v : ToolCall)
    (hm : ∀ kv ∈ m, (kv.2).id = kv.1) (hv : v.id = cid) :
    ∀ kv ∈ mapSet m cid v, (kv.2).id = kv.1 := by
  intro kv hkv
  rcases mem_mapSet m cid v kv hkv with rfl | hkv'
  · exact hv
  · exact hm kv hkv'

theorem toolStep_id_inv (m : List (String × ToolCall)) (e : Json)
    (hm : ∀ kv ∈ m, (kv.2).id = kv.1) :
    ∀ kv ∈ toolStep m e, (kv.2).id = kv.1 := by
  by_cases h1 : e.getStr "type" = some "response_item"
  · rcases hp : toRecord (e.getField "payload") with _ | payload
    · simpa [toolStep, h1, hp] using hm
    · have hbase : ∀ cid : String,
          (match mapGet m cid with
           | some ex => ex
           | none =>
             ({ id := cid
                name := (payload.nnField "name").getD (Json.str "function_call")
                toolKind := "function"
                status := (payload.nnField "status").getD (Json.str "in_progress") } :
               ToolCall)).id = cid := by
        intro cid
        rcases hg : mapGet m cid with _ | ex
        · simp
        · simpa using hm (cid, ex) (mem_of_mapGet_eq_some m cid ex hg)
      have hbaseC : ∀ cid : String,
          (match mapGet m cid with
           | some ex => ex
           | none =>
             ({ id := cid
                name := (payload.nnField "name").getD (Json.str "custom_tool")
                toolKind := "custom"
                status := (payload.nnField "status").getD (Json.str "in_progress") } :
               ToolCall)).id = cid := by
        intro cid
        rcases hg : mapGet m cid with _ | ex
        · simp
        · simpa using hm (cid, ex) (mem_of_mapGet_eq_some m cid ex hg)
      by_cases h2 : payload.getStr "type" = some "function_call"
      · rcases hc : payload.getStr "call_id" with _ | cid
        · simpa [toolStep, h1, hp, h2, hc] using hm
        · rcases hg : mapGet m cid with _ | ex <;>
          rcases harg : payload.getStr "arguments" with _ | args <;>
          · simp only [toolStep, h1, hp, h2, hc, hg, harg, if_true, ne_eq,
              not_true_eq_false, if_false, reduceIte]
            apply mapSet_id_inv m cid _ hm
            first
            | simpa using hm (cid, ex) (mem_of_mapGet_eq_some m cid ex hg)
            | simp
      · by_cases h3 : payload.getStr "type" = some "function_call_output"
        · rcases hc : payload.getStr "call_id" with _ | cid
          · simpa [toolStep, h1, hp, h2, h3, hc] using hm
          · rcases hg : mapGet m cid with _ | ex
            · simpa [toolStep, h1, hp, h2, h3, hc, hg] using hm
            · rcases hout : payload.getStr "output" with _ | out <;>
              · simp only [toolStep, h1, hp, h2, h3, hc, hg, hout, if_true, ne_eq,
                  not_true_eq_false, if_false, reduceIte]
                apply mapSet_id_inv m cid _ hm
                have := hm (cid, ex) (mem_of_mapGet_eq_some m cid ex hg)
                simpa using this
        · by_cases h4 : payload.getStr "type" = some "custom_tool_call"
          · rcases hc : payload.getStr "call_id" with _ | cid
            · simpa [toolStep, h1, hp, h2, h3, h4, hc] using hm
            · rcases hg : mapGet m cid with _ | ex <;>
              rcases hinp : payload.getStr "input" with _ | inp <;>
              · simp only [toolStep, h1, hp, h2, h3, h4, hc, hg, hinp, if_true, ne_eq,
                  not_true_eq_false, if_false, reduceIte]
                apply mapSet_id_inv m cid _ hm
                first
                | simpa using hm (cid, ex) (mem_of_mapGet_eq_some m cid ex hg)
                | simp
          · by_cases h5 : payload.getStr "type" = some "custom_tool_call_output"
            · rcases hc : payload.getStr "call_id" with _ | cid
              · simpa [toolStep, h1, hp, h2, h3, h4, h5, hc] using hm
              · rcases hg : mapGet m cid with _ | ex
                · simpa [toolStep, h1, hp, h2, h3, h4, h5, hc, hg] using hm
                · simp only [toolStep, h1, hp, h2, h3, h4, h5, hc, hg, if_true, ne_eq,
                    not_true_eq_false, if_false, reduceIte]
                  apply mapSet_id_inv m cid _ hm
                  have hid : ex.id = cid := by
                    simpa using hm (cid, ex) (mem_of_mapGet_eq_some m cid ex hg)
                  split <;> (try split) <;> simp [hid]
            · simpa [toolStep, h1, hp, h2, h3, h4, h5] using hm
  · simpa [toolStep, h1] using hm

theorem toolStep_completed (m : List (String × ToolCall)) (e : Json) (c : String) (r : ToolCall)
    (hr : mapGet m c = some r) (hst : r.status = Json.str "completed")
    (he : startCarriesStatus c e = false) :
    ∃ r2, mapGet (toolStep m e) c = some r2 ∧ r2.status = Json.str "completed" := by
  by_cases h1 : e.getStr "type" = some "response_item"
  · rcases hp : toRecord (e.getField "payload") with _ | payload
    · exact ⟨r, by simpa [toolStep, h1, hp] using hr, hst⟩
    · by_cases h2 : payload.getStr "type" = some "function_call"
      · rcases hc : payload.getStr "call_id" with _ | cid
        · exact ⟨r, by simpa [toolStep, h1, hp, h2, hc] using hr, hst⟩
        · by_cases hcc : cid = c
          · subst hcc
            have hn : payload.nnField "status" = none := by
              simp [startCarriesStatus, h1, hp, h2, hc] at he
              rcases ho : (payload.nnField "status") with _ | v
              · rfl
              · rw [ho] at he
                simp at he
            rcases harg : payload.getStr "arguments" with _ | args <;>
            · simp [toolStep, h1, hp, h2, hc, harg, hr, if_true, ne_eq,
                not_true_eq_false, if_false, reduceIte]
              refine ⟨_, mapGet_mapSet_self m cid _, ?_⟩
              simp [hn, hst]
          · rcases harg : payload.getStr "arguments" with _ | args <;>
            · simp [toolStep, h1, hp, h2, hc, harg, if_true, ne_eq,
                not_true_eq_false, if_false, reduceIte]
              exact ⟨r, by rw [mapGet_mapSet_ne m cid c _ hcc]; exact hr, hst⟩
      · by_cases h3 : payload.getStr "type" = some "function_call_output"
        · rcases hc : payload.getStr "call_id" with _ | cid
          · exact ⟨r, by simpa [toolStep, h1, hp, h2, h3, hc] using hr, hst⟩
          · rcases hg : mapGet m cid with _ | ex
            · exact ⟨r, by simpa [toolStep, h1, hp, h2, h3, hc, hg] using hr, hst⟩
            · by_cases hcc : cid = c
              · subst hcc
                rcases hout : payload.getStr "output" with _ | out <;>
                · simp [toolStep, h1, hp, h2, h3, hc, hg, hout, if_true, ne_eq,
                    not_true_eq_false, if_false, reduceIte]
                  refine ⟨_, mapGet_mapSet_self m cid _, ?_⟩
                  simp
              · rcases hout : payload.getStr "output" with _ | out <;>
                · simp [toolStep, h1, hp, h2, h3, hc, hg, hout, if_true, ne_eq,
                    not_true_eq_false, if_false, reduceIte]
                  exact ⟨r, by rw [mapGet_mapSet_ne m cid c _ hcc]; exact hr, hst⟩
        · by_cases h4 : payload.getStr "type" = some "custom_tool_call"
          · rcases hc : payload.getStr "call_id" with _ | cid
            · exact ⟨r, by simpa [toolStep, h1, hp, h2, h3, h4, hc] using hr, hst⟩
            · by_cases hcc : cid = c
              · subst hcc
                have hn : payload.nnField "status" = none := by
                  simp [startCarriesStatus, h1, hp, h2, h4, hc] at he
                  rcases ho : (payload.nnField "status") with _ | v
                  · rfl
                  · rw [ho] at he
                    simp at he
                rcases hinp : payload.getStr "input" with _ | inp <;>
                · simp [toolStep, h1, hp, h2, h3, h4, hc, hinp, hr, if_true, ne_eq,
                    not_true_eq_false, if_false, reduceIte]
                  refine ⟨_, mapGet_mapSet_self m cid _, ?_⟩
                  simp [hn, hst]
              · rcases hinp : payload.getStr "input" with _ | inp <;>
                · simp [toolStep, h1, hp, h2, h3, h4, hc, hinp, if_true, ne_eq,
                    not_true_eq_false, if_false, reduceIte]
                  exact ⟨r, by rw [mapGet_mapSet_ne m cid c _ hcc]; exact hr, hst⟩
          · by_cases h5 : payload.getStr "type" = some "custom_tool_call_output"
            · rcases hc : payload.getStr "call_id" with _ | cid
              · exact ⟨r, by simpa [toolStep, h1, hp, h2, h3, h4, h5, hc] using hr, hst⟩
              · rcases hg : mapGet m cid with _ | ex
                · exact ⟨r, by simpa [toolStep, h1, hp, h2, h3, h4, h5, hc, hg] using hr, hst⟩
                · by_cases hcc : cid = c
                  · subst hcc
                    simp [toolStep, h1, hp, h2, h3, h4, h5, hc, hg, if_true, ne_eq,
                      not_true_eq_false, if_false, reduceIte]
                    refine ⟨_, mapGet_mapSet_self m cid _, ?_⟩
                    simp
                  · simp [toolStep, h1, hp, h2, h3, h4, h5, hc, hg, if_true, ne_eq,
                      not_true_eq_false, if_false, reduceIte]
                    exact ⟨r, by rw [mapGet_mapSet_ne m cid c _ hcc]; exact hr, hst⟩
            · exact ⟨r, by simpa [toolStep, h1, hp, h2, h3, h4, h5] using hr, hst⟩
  · exact ⟨r, by simpa [toolStep, h1] using hr, hst⟩

theorem foldl_toolStep_completed (es : List Json) (m : List (String × ToolCall))
    (c : String) (r : ToolCall)
    (hr : mapGet m c = some r) (hst : r.status = Json.str "completed")
    (hes : ∀ e ∈ es, startCarriesStatus c e = false) :
    ∃ r2, mapGet (es.foldl toolStep m) c = some r2 ∧ r2.status = Json.str "completed" := by
  induction es generalizing m r with
  | nil => exact ⟨r, hr, hst⟩
  | cons e es ih =>
    obtain ⟨r1, hr1, hs1⟩ := toolStep_completed m e c r hr hst (hes e (by simp))
    exact ih (toolStep m e) r1 hr1 hs1 (fun e' he' => hes e' (by simp [he']))

theorem foldl_toolStep_fst (es : List Json) (m : List (String × ToolCall)) :
    ((es.foldl toolStep m).map Prod.fst) = es.foldl toolIdsStep (m.map Prod.fst) := by
  induction es generalizing m with
  | nil => rfl
  | cons e es ih =>
    simp only [List.foldl_cons]
    rw [ih (toolStep m e), toolStep_fst]

theorem foldl_toolStep_id (es : List Json) (m : List (String × ToolCall))
    (hm : ∀ kv ∈ m, (kv.2).id = kv.1) :
    ∀ kv ∈ es.foldl toolStep m, (kv.2).id = kv.1 := by
  induction es generalizing m with
  | nil => exact hm
  | cons e es ih => exact ih (toolStep m e) (toolStep_id_inv m e hm)

theorem foldl_toolIdsStep_nodup (es : List Json) (ids : List String) (h : ids.Nodup) :
    (es.foldl toolIdsStep ids).Nodup := by
  induction es generalizing ids with
  | nil => exact h
  | cons e es ih => exact ih (toolIdsStep ids e) (toolIdsStep_nodup ids e h)

theorem foldl_summaryStep_toolCalls (es : List Json) (st : SummaryState) :
    (es.foldl summaryStep st).toolCalls = es.foldl toolIdsStep st.toolCalls := by
  induction es generalizing st with
  | nil => rfl
  | cons e es ih =>
    simp only [List.foldl_cons]
    rw [ih (summaryStep st e), summaryStep_toolCalls]

theorem summaryStep_meta (st : SummaryState) (e : Json)
    (h : e.getStr "type" ≠ some "session_meta") :
    (summaryStep st e).meta = st.meta := by
  rcases hts : e.getStr "timestamp" with _ | ts
  · by_cases h1 : e.getStr "type" = some "response_item"
    · rcases hp : toRecord (e.getField "payload") with _ | payload
      · simp [summaryStep, hts, h, h1, hp]
      · by_cases h2 : payload.getStr "type" = some "function_call"
            ∨ payload.getStr "type" = some "custom_tool_call"
        · rcases hc : payload.getStr "call_id" with _ | cid <;>
          · rcases h2 with h2 | h2 <;>
              simp [summaryStep, hts, h, h1, hp, h2, hc, apply_ite]
        · push_neg at h2
          simp [summaryStep, hts, h, h1, hp, h2.1, h2.2, apply_ite]
    · by_cases h3 : e.getStr "type" = some "event_msg"
      · rcases hp : toRecord (e.getField "payload") with _ | payload
        · simp [summaryStep, hts, h, h1, h3, hp]
        · rcases hi : payload.getField "info" with _ | info <;>
            simp [summaryStep, hts, h, h1, h3, hp, hi, apply_ite]
      · simp [summaryStep, hts, h, h1, h3]
  · by_cases hts0 : ts = "" <;>
    · by_cases h1 : e.getStr "type" = some "response_item"
      · rcases hp : toRecord (e.getField "payload") with _ | payload
        · simp [summaryStep, hts, hts0, h, h1, hp]
        · by_cases h2 : payload.getStr "type" = some "function_call"
              ∨ payload.getStr "type" = some "custom_tool_call"
          · rcases hc : payload.getStr "call_id" with _ | cid <;>
            · rcases h2 with h2 | h2 <;>
                simp [summaryStep, hts, hts0, h, h1, hp, h2, hc, apply_ite]
          · push_neg at h2
            simp [summaryStep, hts, hts0, h, h1, hp, h2.1, h2.2, apply_ite]
      · by_cases h3 : e.getStr "type" = some "event_msg"
        · rcases hp : toRecord (e.getField "payload") with _ | payload
          · simp [summaryStep, hts, hts0, h, h1, h3, hp]
          · rcases hi : payload.getField "info" with _ | info <;>
              simp [summaryStep, hts, hts0, h, h1, h3, hp, hi, apply_ite]
        · simp [summaryStep, hts, hts0, h, h1, h3]

theorem foldl_summaryStep_meta (es : List Json) (st : SummaryState)
    (h : ∀ e ∈ es, e.getStr "type" ≠ some "session_meta") :
    (es.foldl summaryStep st).meta = st.meta := by
  induction es generalizing st with
  | nil => rfl
  | cons e es ih =>
    simp only [List.foldl_cons]
    rw [ih (summaryStep st e) (fun e' he' => h e' (by simp [he'])),
      summaryStep_meta st e (h e (by simp))]

theorem parseSessionSummary_eq_none (sessionId relativePath : String) (events : List Json)
    (h : ∀ e ∈ events, e.getStr "type" ≠ some "session_meta") :
    parseSessionSummary sessionId relativePath events = none := by
  have hmeta : (List.foldl summaryStep {} events).meta = none :=
    foldl_summaryStep_meta events {} h
  simp [parseSessionSummary, hmeta]

theorem buildToolCalls_count_eq (events : List Json) :
    (buildToolCalls events).toolCallCount = (events.foldl toolIdsStep []).length := by
  have h1 : ((events.foldl toolStep ([] : List (String × ToolCall))).map Prod.fst)
      = events.foldl toolIdsStep [] := foldl_toolStep_fst events []
  calc (buildToolCalls events).toolCallCount
      = ((events.foldl toolStep []).map (fun kv => finalizeCall kv.2)).length := rfl
    _ = (events.foldl toolStep []).length := List.length_map _ _
    _ = ((events.foldl toolStep []).map Prod.fst).length := (List.length_map _ _).symm
    _ = (events.foldl toolIdsStep []).length := by rw [h1]

theorem mk_toList (s : String) : String.mk s.toList = s := rfl

theorem splitLinesGo_no_newline (acc cs : List Char) (h : '\n' ∉ cs) :
    splitLinesGo acc cs = [String.mk (acc.reverse ++ cs)] := by
  induction cs generalizing acc with
  | nil => simp [splitLinesGo]
  | cons c rest ih =>
    have hc : ¬(c = '\n') := fun hx => h (hx ▸ List.mem_cons_self c rest)
    have hr : '\n' ∉ rest := fun hx => h (List.mem_cons_of_mem c hx)
    simp [splitLinesGo, hc, ih (c :: acc) hr]

theorem splitLinesGo_newline_split (cs ds acc : List Char) (h : '\n' ∉ cs) :
    splitLinesGo acc (cs ++ '\n' :: ds) =
      String.mk (acc.reverse ++ cs) :: splitLinesGo [] ds := by
  induction cs generalizing acc with
  | nil => simp [splitLinesGo]
  | cons c rest ih =>
    have hc : ¬(c = '\n') := fun hx => h (hx ▸ List.mem_cons_self c rest)
    have hr : '\n' ∉ rest := fun hx => h (List.mem_cons_of_mem c hx)
    simp [splitLinesGo, hc, ih (c :: acc) hr]

theorem readJsonl_joinLines (ls : List String) (h : ∀ l ∈ ls, '\n' ∉ l.toList) :
    readJsonl (joinLines ls) = ls.filterMap decodeLine := by
  induction ls with
  | nil => rfl
  | cons l rest ih =>
    cases rest with
    | nil =>
      show readJsonl (joinLines [l]) = [l].filterMap decodeLine
      unfold readJsonl splitLines joinLines
      rw [splitLinesGo_no_newline [] l.toList (h l (by simp))]
      simp [mk_toList]
    | cons l2 rest2 =>
      have htl : (joinLines (l :: l2 :: rest2)).toList
          = l.toList ++ '\n' :: (joinLines (l2 :: rest2)).toList := by
        show (l ++ "\n" ++ joinLines (l2 :: rest2)).toList = _
        simp [String.toList, String.data_append]
      have hrest : ∀ l' ∈ l2 :: rest2, '\n' ∉ l'.toList :=
        fun l' hl' => h l' (List.mem_cons_of_mem l hl')
      calc readJsonl (joinLines (l :: l2 :: rest2))
          = (splitLinesGo [] ((joinLines (l :: l2 :: rest2)).toList)).filterMap decodeLine := rfl
        _ = (l :: splitLines (joinLines (l2 :: rest2))).filterMap decodeLine := by
            rw [htl, splitLinesGo_newline_split _ _ [] (h l (by simp))]
            simp [splitLines, mk_toList]
        _ = (decodeLine l).toList ++ readJsonl (joinLines (l2 :: rest2)) := by
            rw [List.filterMap_cons]
            cases decodeLine l <;> simp [readJsonl]
        _ = (decodeLine l).toList ++ (l2 :: rest2).filterMap decodeLine := by
            rw [ih hrest]
        _ = (l :: l2 :: rest2).filterMap decodeLine := by
            cases hd : decodeLine l <;> simp [List.filterMap_cons, hd]

/-- C1, counterexample.  The claim asserts order invariance and stub
creation; the code has neither: start-then-result yields a completed record
holding the output, result-then-start yields an in-progress record without
output or completion (the early result found no record and was dropped),
and a result alone yields no record at all. -/
theorem claimC1_counterexample :
    ((buildToolCalls c1StartThenResult).toolCalls.map
        (fun c => (c.status, c.completedAt, c.output))
      = [(Json.str "completed", some tsB, some (Json.str "ok"))])
    ∧ ((buildToolCalls c1ResultThenStart).toolCalls.map
        (fun c => (c.status, c.completedAt, c.output))
      = [(Json.str "in_progress", none, none)])
    ∧ (buildToolCalls [fnOutputEnv "c1" (some tsB)]).toolCalls = [] :=
  ⟨rfl, rfl, rfl⟩

/-- C1, amended.  A call-result envelope (function or custom variant) whose
correlation id has no record yet is ignored entirely — no stub is created —
so a log that opens with a result envelope reconciles exactly as the log
without it; order invariance holds only in the degenerate sense that the
dropped result contributes nothing. -/
theorem claimC1_result_before_start_ignored (e : Json) (es : List Json)
    (h : isToolResultEnv e = true) :
    buildToolCalls (e :: es) = buildToolCalls es := by
  unfold buildToolCalls
  rw [List.foldl_cons, toolStep_nil_of_result e h]

/-- C1, witness: the amended theorem applied to the concrete fixture. -/
theorem claimC1_witness :
    buildToolCalls c1ResultThenStart = buildToolCalls [fnStartEnv "c1" (some tsA) []] :=
  claimC1_result_before_start_ignored (fnOutputEnv "c1" (some tsB))
    [fnStartEnv "c1" (some tsA) []] (by decide)

/-- C2, counterexample.  After the result the record's status is completed,
but a later call-start envelope for the same id that carries a `status`
payload field overwrites it: the final record reverts to in-progress. -/
theorem claimC2_counterexample :
    ((buildToolCalls c2Completed).toolCalls.map (fun c => c.status)
      = [Json.str "completed"])
    ∧ ((buildToolCalls c2Reverted).toolCalls.map (fun c => c.status)
      = [Json.str "in_progress"]) :=
  ⟨rfl, rfl⟩

/-- C2, amended.  Once a record's status is completed, it stays completed
across any further envelopes that are not call-starts for the same id
carrying a non-nullish `status` payload value: result envelopes re-assert
completion, and a start without an explicit status keeps the existing
status, but a start carrying one overwrites it (the unamended claim fails
exactly there). -/
theorem claimC2_completed_sticky (pre post : List Json) (c : String) (r : ToolCall)
    (hr : mapGet (pre.foldl toolStep []) c = some r)
    (hst : r.status = Json.str "completed")
    (hpost : ∀ e ∈ post, startCarriesStatus c e = false) :
    ∀ r2 ∈ (buildToolCalls (pre ++ post)).toolCalls, r2.id = c →
      r2.status = Json.str "completed" := by
  intro r2 hr2 hid
  obtain ⟨r3, hr3, hs3⟩ := foldl_toolStep_completed post (pre.foldl toolStep []) c r hr hst hpost
  have hmem : r2 ∈ ((pre ++ post).foldl toolStep
      ([] : List (String × ToolCall))).map (fun kv => finalizeCall kv.2) :=
    (mem_jsSort _ _ _).mp hr2
  obtain ⟨kv, hkv, hkveq⟩ := List.mem_map.mp hmem
  have hidkv : (kv.2).id = kv.1 :=
    foldl_toolStep_id (pre ++ post) [] (by simp) kv hkv
  have hfin_id : (finalizeCall kv.2).id = (kv.2).id := by
    unfold finalizeCall
    split <;> (try split) <;> rfl
  have hfin_st : (finalizeCall kv.2).status = (kv.2).status := by
    unfold finalizeCall
    split <;> (try split) <;> rfl
  have hk : kv.1 = c := by
    rw [← hidkv, ← hfin_id, hkveq, hid]
  have hnd : (((pre ++ post).foldl toolStep
      ([] : List (String × ToolCall))).map Prod.fst).Nodup := by
    rw [foldl_toolStep_fst]
    exact foldl_toolIdsStep_nodup _ _ (by simp)
  have hget : mapGet ((pre ++ post).foldl toolStep []) c = some kv.2 := by
    rw [← hk]
    exact mapGet_of_mem_of_nodup _ kv.1 kv.2 (by simpa using hkv) hnd
  have hget2 : mapGet ((pre ++ post).foldl toolStep ([] : List (String × ToolCall))) c
      = some r3 := by
    rw [List.foldl_append]
    exact hr3
  have hkv2 : kv.2 = r3 := by
    rw [hget] at hget2
    exact Option.some.inj hget2
  rw [← hkveq, hfin_st, hkv2, hs3]

/-- C2, witness: the amended theorem applied to a completed record followed
by a late start that carries no status field. -/
theorem claimC2_witness :
    ({ id := "c1", name := Json.str "shell", toolKind := "function"
       status := Json.str "completed", input := some "{}"
       output := some (Json.str "ok"), metadata := none
       startedAt := some tsA, completedAt := some tsB
       durationMs := some (some 5000) } : ToolCall).status = Json.str "completed" := by
  have h := claimC2_completed_sticky c2Completed [fnStartEnv "c1" (some tsC) []] "c1"
    { id := "c1", name := Json.str "shell", toolKind := "function"
      status := Json.str "completed", input := some "{}"
      output := some (Json.str "ok"), metadata := none
      startedAt := some tsA, completedAt := some tsB }
    rfl rfl (by decide)
  exact h _ (List.mem_singleton.mpr rfl) rfl

/-- C3, counterexample.  The claim says a usage-report envelope without a
parseable timestamp contributes no timeline point; the builder instead
substitutes the epoch for an absent timestamp and emits a point. -/
theorem claimC3_counterexample :
    (buildTokenTimeline c3NoTsLog).map (fun p => (p.timestamp, p.timestampMs, p.totalTokens))
      = [(epochIso, some 0, some (Json.num 150))] :=
  rfl

/-- C3, amended.  Timeline selection is timestamp-independent: the built
timeline always holds exactly one point per selected usage envelope; an
absent timestamp becomes the epoch point and an unparseable one a point
with NaN `timestampMs`; and such an envelope still feeds the other
builders' aggregates (here the summary's token totals). -/
theorem claimC3_unparseable_timestamp_kept (events : List Json) :
    ((buildTokenTimeline events).length = (events.filterMap tokenPointOf).length)
    ∧ ((buildTokenTimeline c4MixedLog).map (fun p => (p.timestamp, p.timestampMs))
        = [("not a date", none), (epochIso, some 0)])
    ∧ ((parseSessionSummary "s" "rel" [sessionMetaEnv tsA "/home/u/proj", usageEnv 150 none]).map
        (fun s => (s.totalTokens, s.outputTokens)) = some (Json.num 150, Json.num 20)) :=
  ⟨length_jsSort _ _, rfl, rfl⟩

/-- C4, counterexample.  With an unparseable timestamp in the log the
built timeline is the two-point sequence `[NaN, 0]`, whose adjacent pair
does not satisfy the non-decreasing comparison (NaN compares false). -/
theorem claimC4_counterexample :
    ((buildTokenTimeline c4MixedLog).map TokenTimelinePoint.timestampMs = [none, some 0])
    ∧ ¬ msLe none (some 0) := by
  refine ⟨rfl, ?_⟩
  rintro ⟨x, y, hx, hy, hxy⟩
  cases hx

/-- C4, amended.  When every built point's `timestampMs` is an actual
number (all selected timestamps parse; an absent timestamp parses as the
epoch), adjacent points of the built timeline are non-decreasing. -/
theorem claimC4_monotone_when_parseable (events : List Json)
    (h : ∀ p ∈ buildTokenTimeline events, (p.timestampMs).isSome) :
    List.Chain' (fun p q => msLe p.timestampMs q.timestampMs) (buildTokenTimeline events) := by
  have hsrc : ∀ p ∈ events.filterMap tokenPointOf, (p.timestampMs).isSome := by
    intro p hp
    exact h p ((mem_jsSort _ _ _).mpr hp)
  have hpw : (jsSort timeLe (events.filterMap tokenPointOf)).Pairwise
      (fun a b => timeLe a b = true) := by
    refine jsSort_pairwise timeLe _ ?_ ?_
    · intro a ha b hb
      obtain ⟨x, hx⟩ := Option.isSome_iff_exists.mp (hsrc a ha)
      obtain ⟨y, hy⟩ := Option.isSome_iff_exists.mp (hsrc b hb)
      rcases le_total x y with hxy | hxy
      · left
        simp [timeLe, hx, hy]
        omega
      · right
        simp [timeLe, hx, hy]
        omega
    · intro a ha b hb c hc hab hbc
      obtain ⟨x, hx⟩ := Option.isSome_iff_exists.mp (hsrc a ha)
      obtain ⟨y, hy⟩ := Option.isSome_iff_exists.mp (hsrc b hb)
      obtain ⟨z, hz⟩ := Option.isSome_iff_exists.mp (hsrc c hc)
      rw [timeLe, hx, hy] at hab
      rw [timeLe, hy, hz] at hbc
      rw [timeLe, hx, hz]
      simp only [decide_eq_true_eq] at hab hbc ⊢
      omega
  have hpw2 : (buildTokenTimeline events).Pairwise
      (fun p q => msLe p.timestampMs q.timestampMs) := by
    refine List.Pairwise.imp_of_mem ?_ hpw
    intro a b ha hb hab
    obtain ⟨x, hx⟩ := Option.isSome_iff_exists.mp (h a ha)
    obtain ⟨y, hy⟩ := Option.isSome_iff_exists.mp (h b hb)
    rw [timeLe, hx, hy] at hab
    simp only [decide_eq_true_eq] at hab
    exact ⟨x, y, hx, hy, by omega⟩
  exact hpw2.chain'

/-- C4, witness: the amended theorem applied to the two-point fixture. -/
theorem claimC4_witness :
    List.Chain' (fun p q => msLe p.timestampMs q.timestampMs) (buildTokenTimeline c4OkLog) :=
  claimC4_monotone_when_parseable c4OkLog (by decide)

/-- C5, counterexample.  The claim places untimestamped records last; in
the code the comparator returns 0 whenever either record's `startedAt` is
falsy — undefined or the empty string — so the stable sort leaves such
records at their first-sighting position: the untimestamped record stays
first, around one even two timestamped records keep an order that is not
ascending, and a record whose `startedAt` is the empty string likewise
stays put after a later timestamp. -/
theorem claimC5_counterexample :
    ((buildToolCalls c5NoTsFirst).toolCalls.map (fun c => (c.id, c.startedAt))
      = [("c1", none), ("c2", some tsA)])
    ∧ ((buildToolCalls c5Unsorted).toolCalls.map (fun c => (c.id, c.startedAt))
      = [("a", some tsC), ("b", none), ("c", some tsA)])
    ∧ ((buildToolCalls c5EmptyTs).toolCalls.map (fun c => (c.id, c.startedAt))
      = [("c1", some tsA), ("c2", some "")]) :=
  ⟨rfl, rfl, rfl⟩

/-- C5, amended.  The returned list is always a permutation of the
finalized first-sighting records (every record stays present), and it is
ascending by `startedAt` whenever every returned record has a truthy
`startedAt` (present and nonempty); records whose `startedAt` is undefined
or the empty string fail the comparator's truthiness guard, compare equal
to everything, keep their stable first-sighting position instead of moving
last, and suspend the ascending guarantee across them. -/
theorem claimC5_order (events : List Json) :
    List.Perm (buildToolCalls events).toolCalls
      ((events.foldl toolStep []).map (fun kv => finalizeCall kv.2))
    ∧ ((∀ r ∈ (buildToolCalls events).toolCalls, strOptTruthy r.startedAt = true) →
        (buildToolCalls events).toolCalls.Pairwise
          (fun a b => a.startedAt.getD "" ≤ b.startedAt.getD "")) := by
  constructor
  · exact jsSort_perm _ _
  · intro h
    have hsrc : ∀ r ∈ (events.foldl toolStep ([] : List (String × ToolCall))).map
        (fun kv => finalizeCall kv.2), strOptTruthy r.startedAt = true :=
      fun r hr => h r ((mem_jsSort _ _ _).mpr hr)
    have hpw : (jsSort toolCallLe ((events.foldl toolStep []).map
        (fun kv => finalizeCall kv.2))).Pairwise (fun a b => toolCallLe a b = true) := by
      refine jsSort_pairwise toolCallLe _ ?_ ?_
      · intro a ha b hb
        obtain ⟨x, hx, hnex⟩ := (strOptTruthy_iff _).mp (hsrc a ha)
        obtain ⟨y, hy, hney⟩ := (strOptTruthy_iff _).mp (hsrc b hb)
        rcases le_total x y with hxy | hxy
        · left
          rw [toolCallLe_some a b x y hx hy hnex hney, Bool.not_eq_true',
            jsStrLt_eq_false_iff]
          exact not_lt.mpr hxy
        · right
          rw [toolCallLe_some b a y x hy hx hney hnex, Bool.not_eq_true',
            jsStrLt_eq_false_iff]
          exact not_lt.mpr hxy
      · intro a ha b hb c hc hab hbc
        obtain ⟨x, hx, hnex⟩ := (strOptTruthy_iff _).mp (hsrc a ha)
        obtain ⟨y, hy, hney⟩ := (strOptTruthy_iff _).mp (hsrc b hb)
        obtain ⟨z, hz, hnez⟩ := (strOptTruthy_iff _).mp (hsrc c hc)
        rw [toolCallLe_some a b x y hx hy hnex hney, Bool.not_eq_true',
          jsStrLt_eq_false_iff, not_lt] at hab
        rw [toolCallLe_some b c y z hy hz hney hnez, Bool.not_eq_true',
          jsStrLt_eq_false_iff, not_lt] at hbc
        rw [toolCallLe_some a c x z hx hz hnex hnez, Bool.not_eq_true',
          jsStrLt_eq_false_iff, not_lt]
        exact le_trans hab hbc
    refine List.Pairwise.imp_of_mem ?_ hpw
    intro a b ha hb hab
    obtain ⟨x, hx, hnex⟩ := (strOptTruthy_iff _).mp (h a ha)
    obtain ⟨y, hy, hney⟩ := (strOptTruthy_iff _).mp (h b hb)
    rw [toolCallLe_some a b x y hx hy hnex hney, Bool.not_eq_true',
      jsStrLt_eq_false_iff, not_lt] at hab
    rw [hx, hy]
    simpa using hab

/-- C5, witness: all records of the fixture carry a nonempty `startedAt`,
so the returned list is ascending. -/
theorem claimC5_witness :
    (buildToolCalls c5SortedLog).toolCalls.Pairwise
      (fun a b => a.startedAt.getD "" ≤ b.startedAt.getD "") :=
  (claimC5_order c5SortedLog).2 (by decide)

/-- C6.  On the end-to-end fixture the summary carries the slugified
project id, the user-message preview, one distinct tool call and the last
usage snapshot's total (not a sum); reconciliation yields exactly one
completed record with its five-second duration; and the timeline holds the
two points in ascending millisecond order. -/
theorem claimC6_end_to_end :
    ((parseSessionSummary "sess1" "rel" c6Log).map
        (fun s => (s.projectId, s.preview, s.toolCallCount, s.totalTokens))
      = some ("home-u-proj", "fix bug", 1, Json.num 150))
    ∧ ((buildToolCalls c6Log).toolCalls.map (fun c => (c.id, c.status, c.durationMs))
      = [("c1", Json.str "completed", some (some 5000))])
    ∧ ((buildTokenTimeline c6Log).map (fun p => (p.timestampMs, p.totalTokens))
      = [(some 1736935205000, some (Json.num 100)),
         (some 1736935210000, some (Json.num 150))]) :=
  ⟨rfl, rfl, rfl⟩

/-- C7.  Decoding is per line: a line that fails to decode — empty,
whitespace-only, filtered, or not a parseable JSON object — contributes
nothing, so a log text containing one such line among others decodes to
exactly the sequence of the log without that line, and the read never
fails as a whole. -/
theorem claimC7_malformed_line_resilience (pre post : List String) (bad : String)
    (hpre : ∀ l ∈ pre, '\n' ∉ l.toList) (hpost : ∀ l ∈ post, '\n' ∉ l.toList)
    (hbad : '\n' ∉ bad.toList) (hdec : decodeLine bad = none) :
    readJsonl (joinLines (pre ++ bad :: post)) = readJsonl (joinLines (pre ++ post)) := by
  have h1 : ∀ l ∈ pre ++ bad :: post, '\n' ∉ l.toList := by
    intro l hl
    rcases List.mem_append.mp hl with h | h
    · exact hpre l h
    · rcases List.mem_cons.mp h with rfl | h
      · exact hbad
      · exact hpost l h
  have h2 : ∀ l ∈ pre ++ post, '\n' ∉ l.toList := by
    intro l hl
    rcases List.mem_append.mp hl with h | h
    · exact hpre l h
    · exact hpost l h
  rw [readJsonl_joinLines _ h1, readJsonl_joinLines _ h2,
    List.filterMap_append, List.filterMap_append, List.filterMap_cons, hdec]

/-- C7, witness: one syntactically invalid line between two valid ones. -/
theorem claimC7_witness :
    readJsonl (joinLines (["\x7b\"a\":1\x7d"] ++ "oops\x7b" :: ["\x7b\"b\":2\x7d"]))
      = readJsonl (joinLines (["\x7b\"a\":1\x7d"] ++ ["\x7b\"b\":2\x7d"])) :=
  claimC7_malformed_line_resilience ["\x7b\"a\":1\x7d"] ["\x7b\"b\":2\x7d"] "oops\x7b"
    (by decide) (by decide) (by decide) rfl

set_option maxRecDepth 8192 in
/-- C8.  The summary preview derived from the two text-bearing segments is
the whitespace-collapsed, trimmed join; and a text beyond the limit is cut
to 177 characters with a trailing ellipsis. -/
theorem claimC8_preview :
    ((parseSessionSummary "sess1" "rel" c8Log).map (fun s => s.preview)
      = some "Hello world")
    ∧ composePreview c8LongText = String.mk (List.replicate 177 'a') ++ "..."
    ∧ c8LongText.length > 180 :=
  ⟨rfl, rfl, by decide⟩

/-- C9.  Whenever the summary builder yields a summary, its
`toolCallCount` equals the number of records the reconciler returns for
the same events: the summary's id set and the reconciler's map keys both
enumerate the distinct `call_id` strings of `function_call` and
`custom_tool_call` envelopes in first-sighting order. -/
theorem claimC9_toolCallCount_agrees (sessionId relativePath : String)
    (events : List Json) (s : SessionSummary)
    (h : parseSessionSummary sessionId relativePath events = some s) :
    s.toolCallCount = (buildToolCalls events).toolCallCount := by
  simp only [parseSessionSummary] at h
  rcases hmeta : (List.foldl summaryStep {} events).meta with _ | meta <;> rw [hmeta] at h
  · cases h
  · injection h with h2
    have hcount : s.toolCallCount = (List.foldl summaryStep {} events).toolCalls.length := by
      rw [← h2]
    rw [hcount, buildToolCalls_count_eq, foldl_summaryStep_toolCalls]

/-- C9, witness: the counts agree on the witness log. -/
theorem claimC9_witness :
    c9Summary.toolCallCount = (buildToolCalls c9Log).toolCallCount :=
  claimC9_toolCallCount_agrees "sess1" "rel" c9Log c9Summary rfl

/-- C10.  When the decoded log holds no session-meta envelope the summary
fold yields none, and `getSessionDetail` still returns a full
`SessionDetail`: the summary falls back to the all-zero `emptySummary`
(empty id, zero token totals, epoch time bounds), while transcript,
timeline and tool calls are built from the decoded events as usual. -/
theorem claimC10_missing_meta (sessionId relativePath raw : String)
    (h : ∀ e ∈ readJsonl raw, e.getStr "type" ≠ some "session_meta") :
    getSessionDetail sessionId relativePath raw =
      { summary := emptySummary
        messages := buildMessages (readJsonl raw)
        tokenTimeline := buildTokenTimeline (readJsonl raw)
        toolCalls := (buildToolCalls (readJsonl raw)).toolCalls }
    ∧ emptySummary.id = "" ∧ emptySummary.totalTokens = Json.num 0
    ∧ emptySummary.startedAt = Json.str epochIso := by
  refine ⟨?_, rfl, rfl, rfl⟩
  unfold getSessionDetail
  simp only [parseSessionSummary_eq_none sessionId relativePath _ h, Option.getD_none]

/-- C10, witness: the theorem applied to the meta-less log text. -/
theorem claimC10_witness :
    getSessionDetail "sess1" "rel" c10Raw =
      { summary := emptySummary
        messages := buildMessages (readJsonl c10Raw)
        tokenTimeline := buildTokenTimeline (readJsonl c10Raw)
        toolCalls := (buildToolCalls (readJsonl c10Raw)).toolCalls }
    ∧ emptySummary.id = "" ∧ emptySummary.totalTokens = Json.num 0
    ∧ emptySummary.startedAt = Json.str epochIso :=
  claimC10_missing_meta "sess1" "rel" c10Raw (by decide)
